import Mathlib

/-!
# A shallow embedding of the QEM mesh-simplification core

This file embeds, over exact rationals, the core of the QEM (Quadric Error
Metric) mesh simplifier: the mesh data model (`Vertex.h`, `Edge.h`, `Face.h`,
`Mesh.h`), the quadric/cost computations and the edge collapse (`QEM.cpp`),
and the priority-driven simplification scheduler (`meshSimplify` in the main
translation unit).  Floating-point scalars are idealized as `ℚ`; the square
root (used only to normalize face planes and in the attribute-interpolation
ratio) has no exact rational counterpart, so it is passed as an explicit
oracle `sq : ℚ → ℚ` and instantiated with `ratSqrt` for concrete runs.
Comparisons of the form `sqrt d < eps` in the source are rewritten as
`d < eps^2`, which is equivalent over the exact reals for `d ≥ 0`, `eps > 0`.
-/

namespace QEM

/-- 2-component vector (`glm::vec2`). -/
structure Vec2 where
  x : ℚ
  y : ℚ
deriving DecidableEq

/-- 3-component vector (`glm::vec3`). -/
structure Vec3 where
  x : ℚ
  y : ℚ
  z : ℚ
deriving DecidableEq

/-- 4-component vector (`glm::vec4`). -/
structure Vec4 where
  x : ℚ
  y : ℚ
  z : ℚ
  w : ℚ
deriving DecidableEq

instance : Inhabited Vec2 := ⟨⟨0, 0⟩⟩

instance : Inhabited Vec3 := ⟨⟨0, 0, 0⟩⟩

instance : Inhabited Vec4 := ⟨⟨0, 0, 0, 0⟩⟩

def Vec2.mix (a b : Vec2) (t : ℚ) : Vec2 :=
  ⟨a.x * (1 - t) + b.x * t, a.y * (1 - t) + b.y * t⟩

def Vec3.add (a b : Vec3) : Vec3 := ⟨a.x + b.x, a.y + b.y, a.z + b.z⟩

def Vec3.sub (a b : Vec3) : Vec3 := ⟨a.x - b.x, a.y - b.y, a.z - b.z⟩

def Vec3.smul (t : ℚ) (a : Vec3) : Vec3 := ⟨t * a.x, t * a.y, t * a.z⟩

def Vec3.dot (a b : Vec3) : ℚ := a.x * b.x + a.y * b.y + a.z * b.z

def Vec3.cross (a b : Vec3) : Vec3 :=
  ⟨a.y * b.z - a.z * b.y, a.z * b.x - a.x * b.z, a.x * b.y - a.y * b.x⟩

/-- Squared Euclidean norm; `glm::length v = sqrt (lengthSq v)`. -/
def Vec3.lengthSq (a : Vec3) : ℚ := a.x * a.x + a.y * a.y + a.z * a.z

def Vec4.add (a b : Vec4) : Vec4 := ⟨a.x + b.x, a.y + b.y, a.z + b.z, a.w + b.w⟩

def Vec4.smul (t : ℚ) (a : Vec4) : Vec4 := ⟨t * a.x, t * a.y, t * a.z, t * a.w⟩

def Vec4.dot (a b : Vec4) : ℚ := a.x * b.x + a.y * b.y + a.z * b.z + a.w * b.w

def Vec4.mix (a b : Vec4) (t : ℚ) : Vec4 :=
  ⟨a.x * (1 - t) + b.x * t, a.y * (1 - t) + b.y * t,
   a.z * (1 - t) + b.z * t, a.w * (1 - t) + b.w * t⟩

/-- `glm::mat4`, stored column-major exactly as glm does: `c0 .. c3` are the
columns, and component `x`/`y`/`z`/`w` of a column is row `0`/`1`/`2`/`3`. -/
structure Mat4 where
  c0 : Vec4
  c1 : Vec4
  c2 : Vec4
  c3 : Vec4
deriving DecidableEq

instance : Inhabited Mat4 := ⟨⟨default, default, default, default⟩⟩

/-- `glm::mat4(0.0f)`: the zero matrix. -/
def Mat4.mzero : Mat4 := ⟨⟨0,0,0,0⟩, ⟨0,0,0,0⟩, ⟨0,0,0,0⟩, ⟨0,0,0,0⟩⟩

def Mat4.madd (A B : Mat4) : Mat4 :=
  ⟨Vec4.add A.c0 B.c0, Vec4.add A.c1 B.c1, Vec4.add A.c2 B.c2, Vec4.add A.c3 B.c3⟩

/-- `glm::outerProduct(p, p) = p · pᵀ`: column `i` is `p` scaled by `p[i]`. -/
def Mat4.outerSelf (p : Vec4) : Mat4 :=
  ⟨Vec4.smul p.x p, Vec4.smul p.y p, Vec4.smul p.z p, Vec4.smul p.w p⟩

/-- Matrix-vector product `M * v` (column-major, as glm). -/
def Mat4.mulVec (M : Mat4) (v : Vec4) : Vec4 :=
  Vec4.add (Vec4.add (Vec4.smul v.x M.c0) (Vec4.smul v.y M.c1))
           (Vec4.add (Vec4.smul v.z M.c2) (Vec4.smul v.w M.c3))

-- Entry accessors: `mRC` is the entry at row `R`, column `C`.
def Mat4.m00 (M : Mat4) : ℚ := M.c0.x
def Mat4.m01 (M : Mat4) : ℚ := M.c1.x
def Mat4.m02 (M : Mat4) : ℚ := M.c2.x
def Mat4.m03 (M : Mat4) : ℚ := M.c3.x
def Mat4.m10 (M : Mat4) : ℚ := M.c0.y
def Mat4.m11 (M : Mat4) : ℚ := M.c1.y
def Mat4.m12 (M : Mat4) : ℚ := M.c2.y
def Mat4.m13 (M : Mat4) : ℚ := M.c3.y
def Mat4.m20 (M : Mat4) : ℚ := M.c0.z
def Mat4.m21 (M : Mat4) : ℚ := M.c1.z
def Mat4.m22 (M : Mat4) : ℚ := M.c2.z
def Mat4.m23 (M : Mat4) : ℚ := M.c3.z
def Mat4.m30 (M : Mat4) : ℚ := M.c0.w
def Mat4.m31 (M : Mat4) : ℚ := M.c1.w
def Mat4.m32 (M : Mat4) : ℚ := M.c2.w
def Mat4.m33 (M : Mat4) : ℚ := M.c3.w

/-- 3x3 determinant of `[[a,b,c],[d,e,f],[g,h,i]]`. -/
def det3 (a b c d e f g h i : ℚ) : ℚ :=
  a * (e * i - f * h) - b * (d * i - f * g) + c * (d * h - e * g)

/-- 4x4 determinant (`glm::determinant`), via cofactor expansion on row 0. -/
def Mat4.det4 (M : Mat4) : ℚ :=
  M.m00 * det3 M.m11 M.m12 M.m13 M.m21 M.m22 M.m23 M.m31 M.m32 M.m33
  - M.m01 * det3 M.m10 M.m12 M.m13 M.m20 M.m22 M.m23 M.m30 M.m32 M.m33
  + M.m02 * det3 M.m10 M.m11 M.m13 M.m20 M.m21 M.m23 M.m30 M.m31 M.m33
  - M.m03 * det3 M.m10 M.m11 M.m12 M.m20 M.m21 M.m22 M.m30 M.m31 M.m32

/-- 4x4 inverse (`glm::inverse`): adjugate over determinant.  `cRC` is the
cofactor of entry `(R, C)`; the inverse's entry `(r, c)` is `cCR / det`. -/
def Mat4.inv4 (M : Mat4) : Mat4 :=
  let c00 :=   det3 M.m11 M.m12 M.m13 M.m21 M.m22 M.m23 M.m31 M.m32 M.m33
  let c01 := - det3 M.m10 M.m12 M.m13 M.m20 M.m22 M.m23 M.m30 M.m32 M.m33
  let c02 :=   det3 M.m10 M.m11 M.m13 M.m20 M.m21 M.m23 M.m30 M.m31 M.m33
  let c03 := - det3 M.m10 M.m11 M.m12 M.m20 M.m21 M.m22 M.m30 M.m31 M.m32
  let c10 := - det3 M.m01 M.m02 M.m03 M.m21 M.m22 M.m23 M.m31 M.m32 M.m33
  let c11 :=   det3 M.m00 M.m02 M.m03 M.m20 M.m22 M.m23 M.m30 M.m32 M.m33
  let c12 := - det3 M.m00 M.m01 M.m03 M.m20 M.m21 M.m23 M.m30 M.m31 M.m33
  let c13 :=   det3 M.m00 M.m01 M.m02 M.m20 M.m21 M.m22 M.m30 M.m31 M.m32
  let c20 :=   det3 M.m01 M.m02 M.m03 M.m11 M.m12 M.m13 M.m31 M.m32 M.m33
  let c21 := - det3 M.m00 M.m02 M.m03 M.m10 M.m12 M.m13 M.m30 M.m32 M.m33
  let c22 :=   det3 M.m00 M.m01 M.m03 M.m10 M.m11 M.m13 M.m30 M.m31 M.m33
  let c23 := - det3 M.m00 M.m01 M.m02 M.m10 M.m11 M.m12 M.m30 M.m31 M.m32
  let c30 := - det3 M.m01 M.m02 M.m03 M.m11 M.m12 M.m13 M.m21 M.m22 M.m23
  let c31 :=   det3 M.m00 M.m02 M.m03 M.m10 M.m12 M.m13 M.m20 M.m22 M.m23
  let c32 := - det3 M.m00 M.m01 M.m03 M.m10 M.m11 M.m13 M.m20 M.m21 M.m23
  let c33 :=   det3 M.m00 M.m01 M.m02 M.m10 M.m11 M.m12 M.m20 M.m21 M.m22
  let d := M.det4
  -- column `j` of the inverse holds entries `(r, j) = cJR / d` for `r = 0..3`
  ⟨⟨c00 / d, c01 / d, c02 / d, c03 / d⟩,
   ⟨c10 / d, c11 / d, c12 / d, c13 / d⟩,
   ⟨c20 / d, c21 / d, c22 / d, c23 / d⟩,
   ⟨c30 / d, c31 / d, c32 / d, c33 / d⟩⟩

/-- `GRID_SIZE = 0.001f` (idealized as the exact rational). -/
def gridSize : ℚ := 1 / 1000

/-- Welding `EPSILON = 0.0001f`. -/
def epsWeld : ℚ := 1 / 10000

/-- `QEM_EPSILON = 1e-10f`. -/
def qemEps : ℚ := 1 / 10000000000

/-- `FLT_MAX` (`std::numeric_limits<float>::max()`), idealized as a rational
upper bound larger than any float; it only serves as the initial `minCost`
in the singular-fallback candidate scan. -/
def fltMax : ℚ := 2 ^ 128

/-- `Vertex.h`.  The unused `adjacentVertices` helper list is omitted. -/
structure Vertex where
  position : Vec3
  normal : Vec3
  texCoord : Vec2
  color : Vec4
  quadric : Mat4
  isDeleted : Bool
deriving DecidableEq

instance : Inhabited Vertex :=
  ⟨⟨default, default, default, default, Mat4.mzero, false⟩⟩

/-- `Edge.h`. -/
structure Edge where
  v1 : Nat
  v2 : Nat
  cost : ℚ
  optimalPosition : Vec3
  isBoundary : Bool
  isDirty : Bool
  isDeleted : Bool
deriving DecidableEq

instance : Inhabited Edge := ⟨⟨0, 0, 0, default, false, false, false⟩⟩

/-- `Face.h`. -/
structure Face where
  v1 : Nat
  v2 : Nat
  v3 : Nat
  normal : Vec3
  planeEquation : Vec4
  isDeleted : Bool
deriving DecidableEq

instance : Inhabited Face := ⟨⟨0, 0, 0, default, default, false⟩⟩

/-- `Mesh.h`: the three arenas plus the deleted-vertex counter. -/
structure Mesh where
  vertices : List Vertex
  edges : List Edge
  faces : List Face
  deletedVertices : Nat
deriving DecidableEq

/-- In-place update of one slot of an arena (`arr[i] = f arr[i]`);
out-of-range indices leave the list unchanged. -/
def updAt {α : Type} : List α → Nat → (α → α) → List α
  | [], _, _ => []
  | a :: l, 0, f => f a :: l
  | a :: l, Nat.succ n, f => a :: updAt l n f

theorem length_updAt {α : Type} (l : List α) (i : Nat) (f : α → α) :
    (updAt l i f).length = l.length := by
  induction l generalizing i with
  | nil => rfl
  | cons a l ih =>
    cases i with
    | zero => rfl
    | succ n => simp [updAt, ih]

theorem getD_updAt_self {α : Type} {l : List α} {i : Nat} (f : α → α) (d : α)
    (h : i < l.length) : (updAt l i f).getD i d = f (l.getD i d) := by
  induction l generalizing i with
  | nil => simp at h
  | cons a l ih =>
    cases i with
    | zero => rfl
    | succ n =>
      simp only [updAt, List.getD_cons_succ]
      exact ih (by simpa using h)

theorem getD_updAt_ne {α : Type} {l : List α} {i j : Nat} (f : α → α) (d : α)
    (h : j ≠ i) : (updAt l i f).getD j d = l.getD j d := by
  induction l generalizing i j with
  | nil => rfl
  | cons a l ih =>
    cases i with
    | zero =>
      cases j with
      | zero => exact absurd rfl h
      | succ n => rfl
    | succ n =>
      cases j with
      | zero => rfl
      | succ k =>
        simp only [updAt, List.getD_cons_succ]
        exact ih (fun hk => h (by simp [hk]))

theorem mem_updAt {α : Type} {l : List α} {i : Nat} {f : α → α} {a : α}
    (h : a ∈ updAt l i f) : a ∈ l ∨ ∃ b ∈ l, a = f b := by
  induction l generalizing i with
  | nil => simp [updAt] at h
  | cons x l ih =>
    cases i with
    | zero =>
      rcases List.mem_cons.mp h with h1 | h1
      · exact Or.inr ⟨x, List.mem_cons_self x l, h1⟩
      · exact Or.inl (List.mem_cons_of_mem x h1)
    | succ n =>
      rcases List.mem_cons.mp h with h1 | h1
      · exact Or.inl (h1 ▸ List.mem_cons_self x l)
      · rcases ih h1 with h' | ⟨b, hb, hab⟩
        · exact Or.inl (List.mem_cons_of_mem x h')
        · exact Or.inr ⟨b, List.mem_cons_of_mem x hb, hab⟩

theorem getD_map_lt {α β : Type} {l : List α} {j : Nat} (f : α → β) (d : α)
    (h : j < l.length) : (l.map f).getD j (f d) = f (l.getD j d) := by
  induction l generalizing j with
  | nil => simp at h
  | cons a l ih =>
    cases j with
    | zero => rfl
    | succ n =>
      simp only [List.map_cons, List.getD_cons_succ]
      exact ih (by simpa using h)

theorem getD_map_ge {α β : Type} {l : List α} {j : Nat} (f : α → β) (d : β)
    (h : l.length ≤ j) : (l.map f).getD j d = d := by
  apply List.getD_eq_default
  simpa using h

theorem getD_mem {α : Type} {l : List α} {j : Nat} (d : α)
    (h : j < l.length) : l.getD j d ∈ l := by
  induction l generalizing j with
  | nil => simp at h
  | cons a l ih =>
    cases j with
    | zero => exact List.mem_cons_self a l
    | succ n => exact List.mem_cons_of_mem a (ih (by simpa using h))

/-! ## The cost solver (`computeCost`, QEM.cpp lines 9-61) -/

/-- The pair `(minCost, optimalPosition)` computed by `computeCost` for an
edge with endpoint indices `a`, `b`: sum the endpoint quadrics, constrain
the bottom row of the copy `Q̄` to `(0,0,0,1)`, and either solve
`Q̄ v = e₄` (when `|det Q̄| > QEM_EPSILON`) or scan the three candidates
`p₁`, `p₂`, midpoint keeping the first strict minimizer (`minCost` starts at
`FLT_MAX`). -/
def costOf (a b : Nat) (vertices : List Vertex) : ℚ × Vec3 :=
  let Q := Mat4.madd (vertices.getD a default).quadric
                     (vertices.getD b default).quadric
  -- Q_bar[0][3] = Q_bar[1][3] = Q_bar[2][3] = 0; Q_bar[3][3] = 1 (bottom row)
  let Qbar : Mat4 :=
    ⟨⟨Q.c0.x, Q.c0.y, Q.c0.z, 0⟩, ⟨Q.c1.x, Q.c1.y, Q.c1.z, 0⟩,
     ⟨Q.c2.x, Q.c2.y, Q.c2.z, 0⟩, ⟨Q.c3.x, Q.c3.y, Q.c3.z, 1⟩⟩
  if |Qbar.det4| > qemEps then
    let optimalPos := Qbar.inv4.mulVec ⟨0, 0, 0, 1⟩
    (Vec4.dot optimalPos (Q.mulVec optimalPos),
     ⟨optimalPos.x, optimalPos.y, optimalPos.z⟩)
  else
    let p1 := (vertices.getD a default).position
    let p2 := (vertices.getD b default).position
    let best := [p1, p2, Vec3.smul (1/2) (Vec3.add p1 p2)].foldl
      (fun acc c =>
        let cand : Vec4 := ⟨c.x, c.y, c.z, 1⟩
        let cost := Vec4.dot cand (Q.mulVec cand)
        if cost < acc.1 then (cost, cand) else acc)
      (fltMax, (⟨0, 0, 0, 1⟩ : Vec4))
    (best.1, ⟨best.2.x, best.2.y, best.2.z⟩)

/-- `computeCost(Edge&, const vector<Vertex>&)` (QEM.cpp lines 9-61): store
the computed optimal position and cost; no other edge field is written. -/
def computeCost (edge : Edge) (vertices : List Vertex) : Edge :=
  { edge with cost := (costOf edge.v1 edge.v2 vertices).1,
              optimalPosition := (costOf edge.v1 edge.v2 vertices).2 }

/-! ## Vertex quadrics (`computeQuadric` / `computeAllQuadrics`) -/

/-- The fundamental quadric `Kp = p · pᵀ` of a face's stored plane equation. -/
def kp (face : Face) : Mat4 := Mat4.outerSelf face.planeEquation

/-- One accumulation step of `computeQuadric`: add the face's `Kp` when the
face is live and contains the vertex. -/
def quadricSumStep (vertexIndex : Nat) (acc : Mat4) (face : Face) : Mat4 :=
  if face.isDeleted = false ∧
     (face.v1 = vertexIndex ∨ face.v2 = vertexIndex ∨ face.v3 = vertexIndex)
  then Mat4.madd acc (kp face) else acc

/-- The sum `Σ Kp` over the live faces whose index triple contains
`vertexIndex` (the accumulation loop of `computeQuadric`). -/
def quadricSum (vertexIndex : Nat) (faces : List Face) : Mat4 :=
  faces.foldl (quadricSumStep vertexIndex) Mat4.mzero

/-- `computeQuadric(int, vector<Vertex>&, const vector<Face>&)`: zero the
vertex's quadric, then accumulate over all live incident faces. -/
def computeQuadric (vertexIndex : Nat) (vertices : List Vertex)
    (faces : List Face) : List Vertex :=
  updAt vertices vertexIndex (fun v => { v with quadric := quadricSum vertexIndex faces })

/-- `vertices[i].quadric += K` (no-op when `i` is out of range, as the C++
never is). -/
def addQuadricAt (vertices : List Vertex) (i : Nat) (K : Mat4) : List Vertex :=
  updAt vertices i (fun v => { v with quadric := Mat4.madd v.quadric K })

/-- One face of the `computeAllQuadrics` pass: skip tombstoned faces, else
add the face's `Kp` to each of its three vertices. -/
def allQuadricsStep (vs : List Vertex) (face : Face) : List Vertex :=
  if face.isDeleted then vs
  else
    addQuadricAt (addQuadricAt (addQuadricAt vs face.v1 (kp face)) face.v2 (kp face))
      face.v3 (kp face)

/-- `computeAllQuadrics`: clear every quadric, then one pass over the faces
adding each live face's `Kp` to its three vertices. -/
def computeAllQuadrics (vertices : List Vertex) (faces : List Face) : List Vertex :=
  faces.foldl allQuadricsStep
    (vertices.map (fun v => { v with quadric := Mat4.mzero }))

/-! ## Edge collapse (`edgeCollapse`, QEM.cpp lines 118-225) -/

/-- Step 4 of `edgeCollapse`, applied to one edge: skip tombstoned edges,
remap endpoints `v2 → v1`, tombstone the result when it became a self loop. -/
def remapEdge (v1 v2 : Nat) (e : Edge) : Edge :=
  if e.isDeleted then e
  else
    let a := if e.v1 = v2 then v1 else e.v1
    let b := if e.v2 = v2 then v1 else e.v2
    if a = b then { e with v1 := a, v2 := b, isDeleted := true }
    else { e with v1 := a, v2 := b }

/-- Step 5 of `edgeCollapse`, applied to one face: skip tombstoned faces,
remap `v2 → v1`, tombstone on any repeated vertex. -/
def remapFace (v1 v2 : Nat) (f : Face) : Face :=
  if f.isDeleted then f
  else
    let a := if f.v1 = v2 then v1 else f.v1
    let b := if f.v2 = v2 then v1 else f.v2
    let c := if f.v3 = v2 then v1 else f.v3
    if a = b ∨ b = c ∨ c = a then { f with v1 := a, v2 := b, v3 := c, isDeleted := true }
    else { f with v1 := a, v2 := b, v3 := c }

/-- Step 1 of `edgeCollapse`: both endpoint positions become
`optimalPosition` and `v2` is tombstoned. -/
def edgeCollapseStep1 (verts : List Vertex) (v1 v2 : Nat) (newPos : Vec3) :
    List Vertex :=
  updAt (updAt verts v1 (fun v => { v with position := newPos }))
    v2 (fun v => { v with position := newPos, isDeleted := true })

/-- Steps 2 and 4: tombstone the collapsed edge record (so the walk skips
it), then remap every live edge. -/
def collapseEdges (edges : List Edge) (i v1 v2 : Nat) : List Edge :=
  (updAt edges i (fun e => { e with isDeleted := true })).map (remapEdge v1 v2)

/-- The `affectedEdgeIndices` set: indices of live edges now touching `v1`.
The C++ collects them in an `unordered_set` and iterates in unspecified
order; the per-edge recomputations of step 7 are independent, so increasing
index order yields the same state. -/
def affectedOf (edges4 : List Edge) (v1 : Nat) : List Nat :=
  (List.range edges4.length).filter
    (fun j => decide ((edges4.getD j default).isDeleted = false ∧
      ((edges4.getD j default).v1 = v1 ∨ (edges4.getD j default).v2 = v1)))

/-- Step 7: `computeCost` on each collected, still-live edge. -/
def recomputeAffected (affected : List Nat) (edges : List Edge)
    (verts : List Vertex) : List Edge :=
  affected.foldl
    (fun es j =>
      if (es.getD j default).isDeleted then es
      else updAt es j (fun e => computeCost e verts))
    edges

/-- Step 8: interpolate `v1`'s UV and color toward `v2`'s with the ratio `t`
computed from the positions CURRENTLY stored in the vertex array (both were
overwritten in step 1).  `glm::length` is `sq ∘ lengthSq`; `glm::clamp` is
`min (max · 0) 1`. -/
def interpolateAttrs (sq : ℚ → ℚ) (verts : List Vertex) (v1 v2 : Nat)
    (newPos : Vec3) : List Vertex :=
  let v1Pos := (verts.getD v1 default).position
  let v2Pos := (verts.getD v2 default).position
  let totalDist := sq (Vec3.lengthSq (Vec3.sub v1Pos v2Pos))
  let t : ℚ :=
    if totalDist > qemEps then
      min (max (sq (Vec3.lengthSq (Vec3.sub newPos v1Pos)) / totalDist) 0) 1
    else 1/2
  updAt verts v1 (fun v =>
    { v with texCoord := Vec2.mix v.texCoord (verts.getD v2 default).texCoord t,
             color := Vec4.mix v.color (verts.getD v2 default).color t })

/-- `edgeCollapse(Mesh&, Edge&)` on the edge stored at index `i` (the C++
passes a reference into `mesh.edges`; `meshSimplify` always calls it with
`mesh.edges[edgeIndex]`).  Steps follow the source order: step 1 moves both
endpoint vertices to `optimalPosition` and tombstones `v2`; steps 2/4 walk
the edges; step 5 walks the faces; step 6 rebuilds `v1`'s quadric from the
updated face set; step 7 recomputes the affected edges' costs; step 8
interpolates the surviving vertex's attributes. -/
def edgeCollapse (sq : ℚ → ℚ) (mesh : Mesh) (i : Nat) : Mesh :=
  let edge := mesh.edges.getD i default
  let v1 := edge.v1
  let v2 := edge.v2
  let newPosition := edge.optimalPosition
  let vertices1 := edgeCollapseStep1 mesh.vertices v1 v2 newPosition
  let edges4 := collapseEdges mesh.edges i v1 v2
  let affected := affectedOf edges4 v1
  let faces5 := mesh.faces.map (remapFace v1 v2)
  let vertices6 := computeQuadric v1 vertices1 faces5
  let edges7 := recomputeAffected affected edges4 vertices6
  let vertices8 := interpolateAttrs sq vertices6 v1 v2 newPosition
  { vertices := vertices8, edges := edges7, faces := faces5,
    deletedVertices := mesh.deletedVertices + 1 }

/-! ## Mesh building (`Mesh::buildMesh`) -/

/-- The spatial-hash cell of a position: integer triple of `⌊p / GRID⌋`. -/
def cellOf (p : Vec3) : Int × Int × Int :=
  (Int.floor (p.x / gridSize), Int.floor (p.y / gridSize), Int.floor (p.z / gridSize))

def distSq (a b : Vec3) : ℚ := Vec3.lengthSq (Vec3.sub a b)

/-- First index in a list satisfying a predicate (`std::find`-style scan). -/
def findIdxQ {α : Type} (p : α → Bool) : List α → Option Nat
  | [] => none
  | a :: l => if p a then some 0 else (findIdxQ p l).map (· + 1)

/-- The welding lookup: the first existing vertex living in the same grid
cell and within `EPSILON` of `p`.  The C++ scans the cell's candidate vector,
which stores vertices in insertion order, so scanning all vertices in index
order restricted to the cell is equivalent; `distance < EPS` is expressed as
`distSq < EPS²`. -/
def findWeld (vs : List Vertex) (p : Vec3) : Option Nat :=
  findIdxQ
    (fun v => decide (cellOf v.position = cellOf p ∧
                      distSq p v.position < epsWeld * epsWeld)) vs

/-- The welding loop: for each input corner `(position, uv, normal)` either
reuse a close-enough existing vertex or append a fresh one (color
`vec4(1.0f)`, quadric zero, live), recording the per-corner unique index. -/
def weldLoop : List (Vec3 × Vec2 × Vec3) → List Vertex → List Nat →
    List Vertex × List Nat
  | [], vs, mapping => (vs, mapping)
  | (p, uv, nrm) :: rest, vs, mapping =>
    match findWeld vs p with
    | some j => weldLoop rest vs (mapping ++ [j])
    | none =>
      weldLoop rest (vs ++ [⟨p, nrm, uv, ⟨1, 1, 1, 1⟩, Mat4.mzero, false⟩])
        (mapping ++ [vs.length])

/-- `Face::computeNormal` + constructor: normal from the normalized cross
product of two edges, `d = -n · p₁`. -/
def mkFace (sq : ℚ → ℚ) (i1 i2 i3 : Nat) (p1 p2 p3 : Vec3) : Face :=
  let crossv := Vec3.cross (Vec3.sub p2 p1) (Vec3.sub p3 p1)
  let nrm := Vec3.smul (1 / sq (Vec3.lengthSq crossv)) crossv
  { v1 := i1, v2 := i2, v3 := i3, normal := nrm,
    planeEquation := ⟨nrm.x, nrm.y, nrm.z, -(Vec3.dot nrm p1)⟩,
    isDeleted := false }

/-- Face emission: walk the per-corner unique indices in consecutive triples
(the C++ loop `for (i = 0; i < n; i += 3)` guarded by `i + 2 < n`), skip
degenerate triples, build faces with planes from the welded positions. -/
def emitFaces (sq : ℚ → ℚ) (vs : List Vertex) : List Nat → List Face
  | a :: b :: c :: rest =>
    if a = b ∨ b = c ∨ c = a then emitFaces sq vs rest
    else
      mkFace sq a b c (vs.getD a default).position (vs.getD b default).position
        (vs.getD c default).position :: emitFaces sq vs rest
  | _ => []

/-- The normalized undirected pair `(min, max)` of two vertex indices. -/
def normPair (a b : Nat) : Nat × Nat := (min a b, max a b)

/-- One step of edge extraction: push `Edge(lo, hi)` unless the pair is
already in the seen set (the C++ `std::map<pair,bool> edgeSet`). -/
def addUniqueEdge (st : List Edge × List (Nat × Nat)) (p : Nat × Nat) :
    List Edge × List (Nat × Nat) :=
  if p ∈ st.2 then st
  else (st.1 ++ [{ v1 := p.1, v2 := p.2, cost := 0, optimalPosition := default,
                   isBoundary := false, isDirty := false, isDeleted := false }],
        p :: st.2)

/-- Edge extraction: the three normalized pairs of every face, deduplicated,
in first-occurrence order.  (`optimalPosition` of a fresh edge is
uninitialized in the C++; the embedding uses the zero vector.) -/
def extractEdges (faces : List Face) : List Edge :=
  (faces.foldl
    (fun st face =>
      addUniqueEdge
        (addUniqueEdge (addUniqueEdge st (normPair face.v1 face.v2))
          (normPair face.v2 face.v3))
        (normPair face.v3 face.v1))
    ([], [])).1

/-- `Mesh::buildMesh(numVertices, vertices, uvs, normals)` with
`numVertices = positions.length` (what the caller passes): weld, emit faces,
extract unique edges. -/
def buildMesh (sq : ℚ → ℚ) (positions : List Vec3) (uvs : List Vec2)
    (normals : List Vec3) : Mesh :=
  let corners := (List.range positions.length).map
    (fun i => (positions.getD i default, uvs.getD i default, normals.getD i default))
  let welded := weldLoop corners [] []
  let faces := emitFaces sq welded.1 welded.2
  { vertices := welded.1, edges := extractEdges faces, faces := faces,
    deletedVertices := 0 }

/-! ## The simplification scheduler (`meshSimplify`, main translation unit) -/

/-- The scheduler's endpoint match: `(e.v1, e.v2)` equals the popped
snapshot's endpoints in either order. -/
def edgeMatches (e : Edge) (a b : Nat) : Bool :=
  (e.v1 == a && e.v2 == b) || (e.v1 == b && e.v2 == a)

/-- Pop a minimum-cost snapshot.  `std::priority_queue` leaves ties
implementation-defined; the embedding deterministically pops the leftmost
minimum. -/
def popMinQ : List Edge → Option (Edge × List Edge)
  | [] => none
  | e :: es =>
    match popMinQ es with
    | none => some (e, [])
    | some (m, rest) => if e.cost ≤ m.cost then some (e, es) else some (m, e :: rest)

/-- Lazy queue setup on first call (`edgeQueue.empty()`): compute every live
edge's cost, clear its dirty bit, and push a snapshot of it, in index
order. -/
def initQueue (m : Mesh) : Mesh × List Edge :=
  let edges' := m.edges.map
    (fun e => if e.isDeleted then e else { computeCost e m.vertices with isDirty := false })
  ({ m with edges := edges' }, edges'.filter (fun e => !e.isDeleted))

/-- The collapse loop of `meshSimplify`, with an explicit fuel bound on loop
iterations (the C++ `while (!edgeQueue.empty())`).  `k` is the per-call
collapse budget (`originalVertexCount / 100` in the source; the comparison
`count >= k` sits AFTER the collapse and the increment).  Returns the mesh,
the queue, and the number of collapses performed. -/
def simplifyLoop (sq : ℚ → ℚ) (k : Nat) :
    Nat → Mesh → List Edge → Nat → Mesh × List Edge × Nat
  | 0, m, q, count => (m, q, count)
  | Nat.succ fuel, m, q, count =>
    match popMinQ q with
    | none => (m, q, count)
    | some (edge, q1) =>
      match findIdxQ (fun e => edgeMatches e edge.v1 edge.v2) m.edges with
      | none => simplifyLoop sq k fuel m q1 count
      | some idx =>
        if (m.edges.getD idx default).isDeleted then
          simplifyLoop sq k fuel m q1 count
        else if (m.edges.getD idx default).isDirty then
          let refreshed := updAt m.edges idx
            (fun e => { computeCost e m.vertices with isDirty := false })
          let m' := { m with edges := refreshed }
          simplifyLoop sq k fuel m' (q1 ++ [refreshed.getD idx default]) count
        else
          let m' := edgeCollapse sq m idx
          let newV := (m'.edges.getD idx default).v1
          let edges'' := m'.edges.map
            (fun e => if !e.isDeleted && (e.v1 == newV || e.v2 == newV)
                      then { e with isDirty := true } else e)
          let pushes := edges''.filter
            (fun e => !e.isDeleted && (e.v1 == newV || e.v2 == newV))
          if count + 1 ≥ k then ({ m' with edges := edges'' }, q1 ++ pushes, count + 1)
          else simplifyLoop sq k fuel { m' with edges := edges'' } (q1 ++ pushes) (count + 1)

/-- One call to `meshSimplify()`, with the per-call collapse budget `k`
exposed as an argument (the source reads the global
`originalVertexCount / 100`) and explicit loop fuel. -/
def meshSimplify (sq : ℚ → ℚ) (k fuel : Nat) (m : Mesh) (q : List Edge) :
    Mesh × List Edge × Nat :=
  if q.isEmpty then
    let inited := initQueue m
    simplifyLoop sq k fuel inited.1 inited.2 0
  else simplifyLoop sq k fuel m q 0

/-- An executable square-root oracle: exact on rationals whose reduced
numerator and denominator are perfect squares (which covers every concrete
run in this file), approximate elsewhere.  The source computes `sqrtf` over
floats; the embedding keeps the square root as an explicit `sq` parameter
and instantiates it with this oracle on concrete inputs. -/
def ratSqrt (q : ℚ) : ℚ := (Int.sqrt q.num : ℚ) / (Nat.sqrt q.den : ℚ)

/-! ## Reachable states and the structural invariant -/

/-- Liveness of the vertex record at index `k`. -/
def vertexLive (m : Mesh) (k : Nat) : Prop :=
  (m.vertices.getD k default).isDeleted = false

/-- Mesh states reachable in the program: built by `buildMesh`, then mutated
only by `edgeCollapse` on live edges. -/
inductive Reachable (sq : ℚ → ℚ) : Mesh → Prop
  | build (positions : List Vec3) (uvs : List Vec2) (normals : List Vec3) :
      Reachable sq (buildMesh sq positions uvs normals)
  | collapse (m : Mesh) (i : Nat) :
      Reachable sq m → i < m.edges.length →
      (m.edges.getD i default).isDeleted = false →
      Reachable sq (edgeCollapse sq m i)

/-- The structural invariant: live faces have pairwise-distinct, in-range,
live vertex indices; live edges have distinct, in-range, live endpoints. -/
def meshInv (m : Mesh) : Prop :=
  (∀ f ∈ m.faces, f.isDeleted = false →
      f.v1 ≠ f.v2 ∧ f.v2 ≠ f.v3 ∧ f.v3 ≠ f.v1 ∧
      f.v1 < m.vertices.length ∧ f.v2 < m.vertices.length ∧ f.v3 < m.vertices.length ∧
      vertexLive m f.v1 ∧ vertexLive m f.v2 ∧ vertexLive m f.v3) ∧
  (∀ e ∈ m.edges, e.isDeleted = false →
      e.v1 ≠ e.v2 ∧ e.v1 < m.vertices.length ∧ e.v2 < m.vertices.length ∧
      vertexLive m e.v1 ∧ vertexLive m e.v2)

instance (m : Mesh) : Decidable (meshInv m) := by
  unfold meshInv vertexLive
  infer_instance

/-! ## Anatomy lemmas -/

theorem updAt_of_le {α : Type} {l : List α} {i : Nat} (f : α → α)
    (h : l.length ≤ i) : updAt l i f = l := by
  induction l generalizing i with
  | nil => rfl
  | cons a l ih =>
    cases i with
    | zero => simp at h
    | succ n => simp [updAt, ih (by simpa using h)]

/-- Updating slot `i` does not change any projection `g` that the update
function `f` preserves. -/
theorem getD_updAt_proj {α β : Type} (l : List α) (i j : Nat) (f : α → α)
    (d : α) (g : α → β) (hg : ∀ a, g (f a) = g a) :
    g ((updAt l i f).getD j d) = g (l.getD j d) := by
  rcases eq_or_ne j i with rfl | hne
  · rcases lt_or_le j l.length with h | h
    · rw [getD_updAt_self f d h, hg]
    · rw [updAt_of_le f h]
  · rw [getD_updAt_ne f d hne]

theorem getD_map_proj {α β : Type} (l : List α) (j : Nat) (f : α → α)
    (d : α) (g : α → β) (hg : ∀ a, g (f a) = g a) :
    g ((l.map f).getD j d) = g (l.getD j d) := by
  rcases lt_or_le j l.length with h | h
  · rw [List.getD_eq_getElem _ _ (by simpa using h), List.getD_eq_getElem _ _ h,
      List.getElem_map, hg]
  · rw [List.getD_eq_default _ _ (by simpa using h), List.getD_eq_default _ _ h]

theorem computeCost_v1 (e : Edge) (vs : List Vertex) :
    (computeCost e vs).v1 = e.v1 := rfl

theorem computeCost_v2 (e : Edge) (vs : List Vertex) :
    (computeCost e vs).v2 = e.v2 := rfl

theorem computeCost_isDeleted (e : Edge) (vs : List Vertex) :
    (computeCost e vs).isDeleted = e.isDeleted := rfl

theorem computeCost_isDirty (e : Edge) (vs : List Vertex) :
    (computeCost e vs).isDirty = e.isDirty := rfl

theorem remapEdge_isDirty (v1 v2 : Nat) (e : Edge) :
    (remapEdge v1 v2 e).isDirty = e.isDirty := by
  simp only [remapEdge]
  repeat' split
  all_goals rfl

theorem remapFace_planeEquation (v1 v2 : Nat) (f : Face) :
    (remapFace v1 v2 f).planeEquation = f.planeEquation := by
  simp only [remapFace]
  repeat' split
  all_goals rfl

theorem length_edgeCollapseStep1 (verts : List Vertex) (v1 v2 : Nat) (p : Vec3) :
    (edgeCollapseStep1 verts v1 v2 p).length = verts.length := by
  simp [edgeCollapseStep1, length_updAt]

theorem length_collapseEdges (edges : List Edge) (i v1 v2 : Nat) :
    (collapseEdges edges i v1 v2).length = edges.length := by
  simp [collapseEdges, length_updAt]

theorem length_computeQuadric (idx : Nat) (vs : List Vertex) (fs : List Face) :
    (computeQuadric idx vs fs).length = vs.length := by
  simp [computeQuadric, length_updAt]

theorem length_interpolateAttrs (sq : ℚ → ℚ) (vs : List Vertex) (v1 v2 : Nat)
    (p : Vec3) : (interpolateAttrs sq vs v1 v2 p).length = vs.length := by
  simp [interpolateAttrs, length_updAt]

theorem length_recomputeAffected (vs : List Vertex) (l : List Nat) :
    ∀ es : List Edge, (recomputeAffected l es vs).length = es.length := by
  induction l with
  | nil => intro es; rfl
  | cons a l ih =>
    intro es
    show (recomputeAffected l (if (es.getD a default).isDeleted then es
      else updAt es a (fun e => computeCost e vs)) vs).length = es.length
    rw [ih]
    split
    · rfl
    · exact length_updAt es a _

/-- Step 7 does not change any projection that `computeCost` preserves. -/
theorem getD_recomputeAffected_proj {β : Type} (vs : List Vertex) (g : Edge → β)
    (hg : ∀ e, g (computeCost e vs) = g e) (l : List Nat) (j : Nat) :
    ∀ es : List Edge,
      g ((recomputeAffected l es vs).getD j default) = g (es.getD j default) := by
  induction l with
  | nil => intro es; rfl
  | cons a l ih =>
    intro es
    show g ((recomputeAffected l (if (es.getD a default).isDeleted then es
      else updAt es a (fun e => computeCost e vs)) vs).getD j default) = _
    rw [ih]
    split
    · rfl
    · exact getD_updAt_proj es a j _ default g hg

theorem getD_interpolateAttrs_proj {β : Type} (sq : ℚ → ℚ) (vs : List Vertex)
    (v1 v2 : Nat) (p : Vec3) (k : Nat) (g : Vertex → β)
    (hg : ∀ (v : Vertex) (uv : Vec2) (col : Vec4),
      g { v with texCoord := uv, color := col } = g v) :
    g ((interpolateAttrs sq vs v1 v2 p).getD k default) = g (vs.getD k default) := by
  simp only [interpolateAttrs]
  exact getD_updAt_proj _ _ _ _ _ g (fun v => hg v _ _)

theorem getD_computeQuadric_proj {β : Type} (idx : Nat) (vs : List Vertex)
    (fs : List Face) (k : Nat) (g : Vertex → β)
    (hg : ∀ (v : Vertex) (Q : Mat4), g { v with quadric := Q } = g v) :
    g ((computeQuadric idx vs fs).getD k default) = g (vs.getD k default) := by
  simp only [computeQuadric]
  exact getD_updAt_proj _ _ _ _ _ g (fun v => hg v _)

theorem getD_interpolateAttrs_position (sq : ℚ → ℚ) (vs : List Vertex)
    (v1 v2 : Nat) (p : Vec3) (k : Nat) :
    ((interpolateAttrs sq vs v1 v2 p).getD k default).position =
      (vs.getD k default).position :=
  getD_interpolateAttrs_proj sq vs v1 v2 p k Vertex.position (fun _ _ _ => rfl)

theorem getD_interpolateAttrs_isDeleted (sq : ℚ → ℚ) (vs : List Vertex)
    (v1 v2 : Nat) (p : Vec3) (k : Nat) :
    ((interpolateAttrs sq vs v1 v2 p).getD k default).isDeleted =
      (vs.getD k default).isDeleted :=
  getD_interpolateAttrs_proj sq vs v1 v2 p k Vertex.isDeleted (fun _ _ _ => rfl)

theorem getD_interpolateAttrs_quadric (sq : ℚ → ℚ) (vs : List Vertex)
    (v1 v2 : Nat) (p : Vec3) (k : Nat) :
    ((interpolateAttrs sq vs v1 v2 p).getD k default).quadric =
      (vs.getD k default).quadric :=
  getD_interpolateAttrs_proj sq vs v1 v2 p k Vertex.quadric (fun _ _ _ => rfl)

theorem getD_computeQuadric_position (idx : Nat) (vs : List Vertex)
    (fs : List Face) (k : Nat) :
    ((computeQuadric idx vs fs).getD k default).position =
      (vs.getD k default).position :=
  getD_computeQuadric_proj idx vs fs k Vertex.position (fun _ _ => rfl)

theorem getD_computeQuadric_isDeleted (idx : Nat) (vs : List Vertex)
    (fs : List Face) (k : Nat) :
    ((computeQuadric idx vs fs).getD k default).isDeleted =
      (vs.getD k default).isDeleted :=
  getD_computeQuadric_proj idx vs fs k Vertex.isDeleted (fun _ _ => rfl)

theorem getD_edgeCollapseStep1_position (verts : List Vertex) (v1 v2 : Nat)
    (p : Vec3) (h1 : v1 < verts.length) (h2 : v2 < verts.length) :
    ((edgeCollapseStep1 verts v1 v2 p).getD v1 default).position = p ∧
    ((edgeCollapseStep1 verts v1 v2 p).getD v2 default).position = p := by
  rcases eq_or_ne v1 v2 with rfl | hne
  · have h : ((edgeCollapseStep1 verts v1 v1 p).getD v1 default).position = p := by
      simp only [edgeCollapseStep1]
      rw [getD_updAt_self _ _ (by rw [length_updAt]; exact h1)]
    exact ⟨h, h⟩
  · constructor
    · simp only [edgeCollapseStep1]
      rw [getD_updAt_ne _ _ hne, getD_updAt_self _ _ h1]
    · simp only [edgeCollapseStep1]
      rw [getD_updAt_self _ _ (by rw [length_updAt]; exact h2)]

theorem edgeCollapse_faces_planeEquation (sq : ℚ → ℚ) (m : Mesh) (i j : Nat) :
    ((edgeCollapse sq m i).faces.getD j default).planeEquation =
      (m.faces.getD j default).planeEquation := by
  simp only [edgeCollapse]
  exact getD_map_proj _ _ _ _ _ (remapFace_planeEquation _ _)

theorem edgeCollapse_faces_length (sq : ℚ → ℚ) (m : Mesh) (i : Nat) :
    (edgeCollapse sq m i).faces.length = m.faces.length := by
  simp [edgeCollapse]

theorem edgeCollapse_vertices_length (sq : ℚ → ℚ) (m : Mesh) (i : Nat) :
    (edgeCollapse sq m i).vertices.length = m.vertices.length := by
  simp [edgeCollapse, length_interpolateAttrs, length_computeQuadric,
    length_edgeCollapseStep1]

theorem edgeCollapse_edges_length (sq : ℚ → ℚ) (m : Mesh) (i : Nat) :
    (edgeCollapse sq m i).edges.length = m.edges.length := by
  simp [edgeCollapse, length_recomputeAffected, length_collapseEdges]

/-! ## Claim C7 -/

/-- C7: no call to `edgeCollapse` (hence no sequence of collapses) modifies
any face's `planeEquation`; the face array keeps its length, and every face
record, live or tombstoned, carries its build-time plane.  (`computeQuadric`,
`computeAllQuadrics` and `computeCost` take the face array as read-only
input — they return only updated vertices/edges — so they cannot write a
plane either.) -/
theorem facePlanes_frozen (sq : ℚ → ℚ) (m : Mesh) (js : List Nat) :
    ((js.foldl (edgeCollapse sq) m).faces.length = m.faces.length) ∧
    ∀ j : Nat, (((js.foldl (edgeCollapse sq) m).faces.getD j default).planeEquation
      = (m.faces.getD j default).planeEquation) := by
  induction js generalizing m with
  | nil => exact ⟨rfl, fun _ => rfl⟩
  | cons a js ih =>
    refine ⟨?_, fun j => ?_⟩
    · rw [List.foldl_cons, (ih (edgeCollapse sq m a)).1, edgeCollapse_faces_length]
    · rw [List.foldl_cons, (ih (edgeCollapse sq m a)).2 j,
        edgeCollapse_faces_planeEquation]

/-! ## Claim C10 -/

/-- C10: collapsing the edge stored at index `i` overwrites the positions of
BOTH endpoint vertices with the edge's `optimalPosition` — the tombstoned
`v2` record does not keep its pre-collapse position. -/
theorem edgeCollapse_overwrites_both_positions (sq : ℚ → ℚ) (m : Mesh) (i : Nat)
    (h1 : (m.edges.getD i default).v1 < m.vertices.length)
    (h2 : (m.edges.getD i default).v2 < m.vertices.length) :
    ((edgeCollapse sq m i).vertices.getD (m.edges.getD i default).v1
        default).position = (m.edges.getD i default).optimalPosition ∧
    ((edgeCollapse sq m i).vertices.getD (m.edges.getD i default).v2
        default).position = (m.edges.getD i default).optimalPosition := by
  have hstep := getD_edgeCollapseStep1_position m.vertices
    (m.edges.getD i default).v1 (m.edges.getD i default).v2
    (m.edges.getD i default).optimalPosition h1 h2
  constructor
  · show ((interpolateAttrs sq _ _ _ _).getD _ default).position = _
    rw [getD_interpolateAttrs_position, getD_computeQuadric_position]
    exact hstep.1
  · show ((interpolateAttrs sq _ _ _ _).getD _ default).position = _
    rw [getD_interpolateAttrs_position, getD_computeQuadric_position]
    exact hstep.2

/-- A two-vertex, one-edge mesh state (an isolated segment with the collapse
target at the origin), used as concrete input below. -/
def segMesh : Mesh :=
  { vertices :=
      [⟨⟨0,0,0⟩, ⟨0,0,1⟩, ⟨0,0⟩, ⟨1,1,1,1⟩, Mat4.mzero, false⟩,
       ⟨⟨1,0,0⟩, ⟨0,0,1⟩, ⟨1,0⟩, ⟨1,1,1,1⟩, Mat4.mzero, false⟩],
    edges := [{ v1 := 0, v2 := 1, cost := 0, optimalPosition := ⟨0,0,0⟩,
                isBoundary := false, isDirty := false, isDeleted := false }],
    faces := [], deletedVertices := 0 }

/-- Witness for C10 at `segMesh`. -/
theorem edgeCollapse_overwrites_both_positions_witness :
    ((edgeCollapse ratSqrt segMesh 0).vertices.getD 0 default).position = ⟨0,0,0⟩ ∧
    ((edgeCollapse ratSqrt segMesh 0).vertices.getD 1 default).position = ⟨0,0,0⟩ := by
  have h := edgeCollapse_overwrites_both_positions ratSqrt segMesh 0
    (by decide) (by decide)
  simpa [segMesh, List.getD] using h

/-! ## Claim C3 -/

theorem madd_mzero_mzero : Mat4.madd Mat4.mzero Mat4.mzero = Mat4.mzero := by
  simp [Mat4.madd, Mat4.mzero, Vec4.add]

theorem mulVec_zeroMat (v : Vec4) :
    Mat4.mulVec ⟨⟨0,0,0,0⟩, ⟨0,0,0,0⟩, ⟨0,0,0,0⟩, ⟨0,0,0,0⟩⟩ v = ⟨0, 0, 0, 0⟩ := by
  simp [Mat4.mulVec, Vec4.smul, Vec4.add]

theorem dot_zero_right (v : Vec4) : Vec4.dot v ⟨0, 0, 0, 0⟩ = 0 := by
  simp [Vec4.dot]

/-- C3 (amended): when both endpoint vertices carry the zero quadric, the
summed quadric is zero, `Q̄`'s determinant is 0 (so the singular fallback
runs), every candidate's cost is 0, and the scan — which keeps only strict
improvements starting from `FLT_MAX` — retains the FIRST candidate: the
position of endpoint `v1`, not the midpoint.  The cost is 0 as claimed. -/
theorem computeCost_zero_quadrics (e : Edge) (vs : List Vertex)
    (hq1 : (vs.getD e.v1 default).quadric = Mat4.mzero)
    (hq2 : (vs.getD e.v2 default).quadric = Mat4.mzero) :
    (computeCost e vs).optimalPosition = (vs.getD e.v1 default).position ∧
    (computeCost e vs).cost = 0 := by
  have hQ : Mat4.madd (vs.getD e.v1 default).quadric
      (vs.getD e.v2 default).quadric = Mat4.mzero := by
    rw [hq1, hq2, madd_mzero_mzero]
  simp only [computeCost, costOf, hQ, Mat4.mzero]
  norm_num [Mat4.det4, det3, Mat4.m00, Mat4.m01, Mat4.m02, Mat4.m03,
    Mat4.m10, Mat4.m11, Mat4.m12, Mat4.m13, Mat4.m20, Mat4.m21, Mat4.m22,
    Mat4.m23, Mat4.m30, Mat4.m31, Mat4.m32, Mat4.m33, qemEps,
    fltMax, mulVec_zeroMat, dot_zero_right, Vec3.smul, Vec3.add, List.foldl]

/-- Vertices for the C3 inputs: both quadrics zero, positions `(0,0,0)` and
`(2,0,0)` (so the midpoint `(1,0,0)` differs from both endpoints). -/
def c3Verts : List Vertex :=
  [⟨⟨0,0,0⟩, ⟨0,0,1⟩, ⟨0,0⟩, ⟨1,1,1,1⟩, Mat4.mzero, false⟩,
   ⟨⟨2,0,0⟩, ⟨0,0,1⟩, ⟨0,0⟩, ⟨1,1,1,1⟩, Mat4.mzero, false⟩]

def c3Edge : Edge :=
  { v1 := 0, v2 := 1, cost := 0, optimalPosition := ⟨0,0,0⟩,
    isBoundary := false, isDirty := false, isDeleted := false }

/-- C3 counterexample: on a concrete edge between two zero-quadric vertices
at `(0,0,0)` and `(2,0,0)`, `computeCost` leaves `optimalPosition` at
endpoint `p₁ = (0,0,0)`, NOT at the midpoint `(1,0,0)` the claim requires
(the cost is 0 as claimed). -/
theorem computeCost_zero_quadrics_counterexample :
    (computeCost c3Edge c3Verts).cost = 0 ∧
    (computeCost c3Edge c3Verts).optimalPosition = ⟨0,0,0⟩ ∧
    (computeCost c3Edge c3Verts).optimalPosition ≠
      Vec3.smul (1/2) (Vec3.add ⟨0,0,0⟩ ⟨2,0,0⟩) := by
  norm_num [computeCost, costOf, c3Edge, c3Verts, List.getD, Mat4.madd, Mat4.mzero,
    Vec4.add, Mat4.det4, det3, Mat4.m00, Mat4.m01, Mat4.m02, Mat4.m03,
    Mat4.m10, Mat4.m11, Mat4.m12, Mat4.m13, Mat4.m20, Mat4.m21, Mat4.m22,
    Mat4.m23, Mat4.m30, Mat4.m31, Mat4.m32, Mat4.m33, qemEps, fltMax,
    Mat4.mulVec, Vec4.smul, Vec4.dot, Vec3.smul, Vec3.add, Vec3.mk.injEq]

/-- Witness for the amended C3 at the concrete input. -/
theorem computeCost_zero_quadrics_witness :
    (computeCost c3Edge c3Verts).optimalPosition = ⟨0,0,0⟩ ∧
    (computeCost c3Edge c3Verts).cost = 0 := by
  have h := computeCost_zero_quadrics c3Edge c3Verts rfl rfl
  simpa [c3Verts, c3Edge, List.getD] using h

/-! ## Claim C5 -/

/-- C5: at the failing input `segMesh` — endpoints at `(0,0,0)` and
`(1,0,0)` with UVs `(0,0)` and `(1,0)`, collapse target `optimalPosition =
(0,0,0)` — the claim's ratio would be `t = ‖opt − v₁_pre‖ / ‖v₂_pre −
v₁_pre‖ = 0/1 = 0`, leaving `v₁`'s UV at `(0,0)`.  The code, however,
computes `t` AFTER step 1 overwrote both endpoint positions with
`optimalPosition`, so `totalDist = 0`, the `t = 0.5` default always applies,
and the UV lands at `(1/2, 0)`. -/
theorem interpolation_ratio_is_half_at_failing_input :
    ((edgeCollapse ratSqrt segMesh 0).vertices.getD 0 default).texCoord = ⟨1/2, 0⟩ ∧
    (⟨1/2, 0⟩ : Vec2) ≠ (⟨0, 0⟩ : Vec2) := by
  constructor
  · norm_num [segMesh, edgeCollapse, edgeCollapseStep1, collapseEdges, affectedOf,
      recomputeAffected, interpolateAttrs, updAt, remapEdge, remapFace,
      computeQuadric, quadricSum, kp, Mat4.outerSelf, Mat4.mzero, Mat4.madd,
      Vec4.add, Vec4.smul, computeCost, Mat4.det4, Mat4.inv4, det3, Mat4.m00,
      Mat4.m01, Mat4.m02, Mat4.m03, Mat4.m10, Mat4.m11, Mat4.m12, Mat4.m13,
      Mat4.m20, Mat4.m21, Mat4.m22, Mat4.m23, Mat4.m30, Mat4.m31, Mat4.m32,
      Mat4.m33, Mat4.mulVec, Vec4.dot, Vec3.add, Vec3.smul, Vec3.sub,
      Vec3.lengthSq, Vec3.cross, Vec3.dot, qemEps, fltMax, Vec2.mix, Vec4.mix,
      ratSqrt, Int.sqrt, Nat.sqrt, List.getD, costOf]
  · norm_num [Vec2.mk.injEq]

/-! ## Claim C6 -/

theorem madd_mzero_left (A : Mat4) : Mat4.madd Mat4.mzero A = A := by
  simp [Mat4.madd, Mat4.mzero, Vec4.add]

theorem madd_mzero_right (A : Mat4) : Mat4.madd A Mat4.mzero = A := by
  simp [Mat4.madd, Mat4.mzero, Vec4.add]

theorem madd_assoc (A B C : Mat4) :
    Mat4.madd (Mat4.madd A B) C = Mat4.madd A (Mat4.madd B C) := by
  simp [Mat4.madd, Vec4.add, add_assoc]

theorem length_addQuadricAt (vs : List Vertex) (i : Nat) (K : Mat4) :
    (addQuadricAt vs i K).length = vs.length := by
  simp [addQuadricAt, length_updAt]

theorem getD_addQuadricAt_ne (vs : List Vertex) (i : Nat) (K : Mat4) {k : Nat}
    (h : k ≠ i) : (addQuadricAt vs i K).getD k default = vs.getD k default :=
  getD_updAt_ne _ _ h

theorem getD_addQuadricAt_self (vs : List Vertex) (i : Nat) (K : Mat4)
    (h : i < vs.length) :
    ((addQuadricAt vs i K).getD i default).quadric =
      Mat4.madd ((vs.getD i default).quadric) K := by
  rw [addQuadricAt, getD_updAt_self _ _ h]

theorem length_allQuadricsStep (vs : List Vertex) (f : Face) :
    (allQuadricsStep vs f).length = vs.length := by
  unfold allQuadricsStep
  split
  · rfl
  · simp [length_addQuadricAt]

/-- Accumulating from `a` instead of from zero shifts the result by `a`. -/
theorem quadricSum_shift (v : Nat) (fs : List Face) :
    ∀ a : Mat4, fs.foldl (quadricSumStep v) a = Mat4.madd a (quadricSum v fs) := by
  induction fs with
  | nil => intro a; exact (madd_mzero_right a).symm
  | cons f fs ih =>
    intro a
    rw [List.foldl_cons, ih]
    have h2 : quadricSum v (f :: fs) =
        Mat4.madd (quadricSumStep v Mat4.mzero f) (quadricSum v fs) := by
      have hdef : quadricSum v (f :: fs) =
          fs.foldl (quadricSumStep v) (quadricSumStep v Mat4.mzero f) := rfl
      rw [hdef, ih]
    rw [h2]
    unfold quadricSumStep
    by_cases hc : f.isDeleted = false ∧ (f.v1 = v ∨ f.v2 = v ∨ f.v3 = v)
    · rw [if_pos hc, if_pos hc, madd_mzero_left, madd_assoc]
    · rw [if_neg hc, if_neg hc, madd_mzero_left]

theorem quadricSum_cons (v : Nat) (f : Face) (fs : List Face) :
    quadricSum v (f :: fs) =
      Mat4.madd (quadricSumStep v Mat4.mzero f) (quadricSum v fs) := by
  have hdef : quadricSum v (f :: fs) =
      fs.foldl (quadricSumStep v) (quadricSumStep v Mat4.mzero f) := rfl
  rw [hdef, quadricSum_shift]

/-- On a face with pairwise-distinct live indices, one `computeAllQuadrics`
step changes vertex `v`'s quadric exactly as one `quadricSumStep` does. -/
theorem getD_allQuadricsStep_quadric (vs : List Vertex) (f : Face) (v : Nat)
    (hv : v < vs.length)
    (hd : f.isDeleted = false → f.v1 ≠ f.v2 ∧ f.v2 ≠ f.v3 ∧ f.v3 ≠ f.v1) :
    ((allQuadricsStep vs f).getD v default).quadric =
      quadricSumStep v ((vs.getD v default).quadric) f := by
  unfold allQuadricsStep quadricSumStep
  by_cases hdel : f.isDeleted
  · rw [if_pos hdel, if_neg (by simp [hdel])]
  · rw [if_neg hdel]
    obtain ⟨h12, h23, h31⟩ := hd (by simpa using hdel)
    by_cases h1 : f.v1 = v
    · have hb : f.v2 ≠ v := fun h => h12 (h1.trans h.symm)
      have hc : f.v3 ≠ v := fun h => h31 (h.trans h1.symm)
      rw [getD_addQuadricAt_ne _ _ _ (Ne.symm hc),
        getD_addQuadricAt_ne _ _ _ (Ne.symm hb), h1,
        getD_addQuadricAt_self _ _ _ hv,
        if_pos ⟨by simpa using hdel, Or.inl rfl⟩]
    · by_cases h2 : f.v2 = v
      · have hcne : f.v3 ≠ v := fun h => h23 (h2.trans h.symm)
        rw [getD_addQuadricAt_ne _ _ _ (Ne.symm hcne), h2,
          getD_addQuadricAt_self _ _ _ (by rw [length_addQuadricAt]; exact hv),
          getD_addQuadricAt_ne _ _ _ (Ne.symm h1),
          if_pos ⟨by simpa using hdel, Or.inr (Or.inl rfl)⟩]
      · by_cases h3 : f.v3 = v
        · rw [h3, getD_addQuadricAt_self _ _ _
            (by rw [length_addQuadricAt, length_addQuadricAt]; exact hv),
            getD_addQuadricAt_ne _ _ _ (Ne.symm h2),
            getD_addQuadricAt_ne _ _ _ (Ne.symm h1),
            if_pos ⟨by simpa using hdel, Or.inr (Or.inr rfl)⟩]
        · rw [getD_addQuadricAt_ne _ _ _ (Ne.symm h3),
            getD_addQuadricAt_ne _ _ _ (Ne.symm h2),
            getD_addQuadricAt_ne _ _ _ (Ne.symm h1),
            if_neg (by
              rintro ⟨-, hmem⟩
              rcases hmem with h | h | h
              exacts [h1 h, h2 h, h3 h])]

theorem getD_computeAllQuadrics_fold (v : Nat) (fs : List Face)
    (hd : ∀ f ∈ fs, f.isDeleted = false →
      f.v1 ≠ f.v2 ∧ f.v2 ≠ f.v3 ∧ f.v3 ≠ f.v1) :
    ∀ ws : List Vertex, v < ws.length →
      ((fs.foldl allQuadricsStep ws).getD v default).quadric =
        Mat4.madd ((ws.getD v default).quadric) (quadricSum v fs) := by
  induction fs with
  | nil => intro ws _; exact (madd_mzero_right _).symm
  | cons f fs ih =>
    intro ws hw
    rw [List.foldl_cons,
      ih (fun g hg => hd g (List.mem_cons_of_mem f hg)) _
        (by rw [length_allQuadricsStep]; exact hw),
      getD_allQuadricsStep_quadric ws f v hw (hd f (List.mem_cons_self f fs)),
      quadricSum_cons]
    unfold quadricSumStep
    by_cases hc : f.isDeleted = false ∧ (f.v1 = v ∨ f.v2 = v ∨ f.v3 = v)
    · rw [if_pos hc, if_pos hc, madd_mzero_left, madd_assoc]
    · rw [if_neg hc, if_neg hc, madd_mzero_left]

/-- C6: on any vertex/face arrays whose live faces have pairwise-distinct
indices (the invariant of every reachable mesh), the single-pass
`computeAllQuadrics` assigns every live vertex exactly the quadric that the
per-vertex `computeQuadric` computes. -/
theorem computeAllQuadrics_agrees_computeQuadric (vs : List Vertex)
    (fs : List Face) (v : Nat) (hv : v < vs.length)
    (_hlive : (vs.getD v default).isDeleted = false)
    (hd : ∀ f ∈ fs, f.isDeleted = false →
      f.v1 ≠ f.v2 ∧ f.v2 ≠ f.v3 ∧ f.v3 ≠ f.v1) :
    ((computeAllQuadrics vs fs).getD v default).quadric =
      ((computeQuadric v vs fs).getD v default).quadric := by
  have hclear : (((vs.map (fun u : Vertex =>
      { u with quadric := Mat4.mzero })).getD v default)).quadric = Mat4.mzero := by
    rw [List.getD_eq_getElem _ _ (by simpa using hv), List.getElem_map]
  rw [computeAllQuadrics,
    getD_computeAllQuadrics_fold v fs hd _ (by simpa using hv), hclear,
    madd_mzero_left, computeQuadric, getD_updAt_self _ _ hv]

/-- Concrete arrays for the C6 witness: three live vertices, one live face. -/
def c6Verts : List Vertex :=
  [⟨⟨0,0,0⟩, ⟨0,0,1⟩, ⟨0,0⟩, ⟨1,1,1,1⟩, Mat4.mzero, false⟩,
   ⟨⟨1,0,0⟩, ⟨0,0,1⟩, ⟨0,0⟩, ⟨1,1,1,1⟩, Mat4.mzero, false⟩,
   ⟨⟨0,1,0⟩, ⟨0,0,1⟩, ⟨0,0⟩, ⟨1,1,1,1⟩, Mat4.mzero, false⟩]

def c6Faces : List Face :=
  [{ v1 := 0, v2 := 1, v3 := 2, normal := ⟨0,0,1⟩,
     planeEquation := ⟨0,0,1,0⟩, isDeleted := false }]

/-- Witness for C6 at the one-triangle arrays. -/
theorem computeAllQuadrics_agrees_computeQuadric_witness :
    ((computeAllQuadrics c6Verts c6Faces).getD 0 default).quadric =
      ((computeQuadric 0 c6Verts c6Faces).getD 0 default).quadric :=
  computeAllQuadrics_agrees_computeQuadric c6Verts c6Faces 0 (by decide)
    (by decide) (by decide)

/-! ## Claim C9 -/

/-- Indices outside the affected list are untouched by step 7. -/
theorem recomputeAffected_stable (vs : List Vertex) (l : List Nat) (j : Nat)
    (hj : j ∉ l) : ∀ es : List Edge,
      (recomputeAffected l es vs).getD j default = es.getD j default := by
  induction l with
  | nil => intro es; rfl
  | cons a l ih =>
    intro es
    have hja : j ≠ a := fun h => hj (h ▸ List.mem_cons_self a l)
    have htail : j ∉ l := fun h => hj (List.mem_cons_of_mem a h)
    show (recomputeAffected l (if (es.getD a default).isDeleted then es
      else updAt es a (fun e => computeCost e vs)) vs).getD j default = _
    rw [ih htail]
    split
    · rfl
    · exact getD_updAt_ne _ _ hja

/-- A live index occurring in a duplicate-free affected list ends up exactly
`computeCost`-updated. -/
theorem recomputeAffected_hits (vs : List Vertex) (l : List Nat)
    (hnd : l.Nodup) (j : Nat) (hj : j ∈ l) : ∀ es : List Edge,
      j < es.length → (es.getD j default).isDeleted = false →
      (recomputeAffected l es vs).getD j default =
        computeCost (es.getD j default) vs := by
  induction l with
  | nil => cases hj
  | cons a l ih =>
    intro es hlen hlive
    rcases List.mem_cons.mp hj with rfl | hjl
    · have hnotin : j ∉ l := (List.nodup_cons.mp hnd).1
      show (recomputeAffected l (if (es.getD j default).isDeleted then es
        else updAt es j (fun e => computeCost e vs)) vs).getD j default = _
      rw [recomputeAffected_stable vs l j hnotin, if_neg (by simpa using hlive),
        getD_updAt_self _ _ hlen]
    · have hja : j ≠ a := fun h =>
        (List.nodup_cons.mp hnd).1 (h ▸ hjl)
      show (recomputeAffected l (if (es.getD a default).isDeleted then es
        else updAt es a (fun e => computeCost e vs)) vs).getD j default = _
      have hstep : ((if (es.getD a default).isDeleted then es
          else updAt es a (fun e => computeCost e vs)) : List Edge).getD j default
          = es.getD j default := by
        split
        · rfl
        · exact getD_updAt_ne _ _ hja
      have hsteplen : ((if (es.getD a default).isDeleted then es
          else updAt es a (fun e => computeCost e vs)) : List Edge).length
          = es.length := by
        split
        · rfl
        · exact length_updAt es a _
      rw [ih (List.nodup_cons.mp hnd).2 hjl _ (hsteplen ▸ hlen) (by rw [hstep]; exact hlive),
        hstep]

/-- `costOf` reads only quadrics and positions. -/
theorem costOf_congr (a b : Nat) (vs vs' : List Vertex)
    (hq : ∀ k, (vs'.getD k default).quadric = (vs.getD k default).quadric)
    (hp : ∀ k, (vs'.getD k default).position = (vs.getD k default).position) :
    costOf a b vs' = costOf a b vs := by
  simp only [costOf, hq a, hq b, hp a, hp b]

/-- C9 (amended): `edgeCollapse` recomputes the cost and `optimalPosition`
of every still-live affected edge (one now incident to the surviving vertex
`v1`) via the cost solver — stated as: on return such an edge is a fixpoint
of `computeCost` with respect to the returned vertex array — but it does NOT
clear dirty flags: neither `edgeCollapse` nor `computeCost` ever writes
`isDirty`, so every edge keeps the dirty flag it had before the call. -/
theorem edgeCollapse_recomputes_affected_keeps_dirty (sq : ℚ → ℚ) (m : Mesh)
    (i j : Nat) (hj : j < m.edges.length) :
    (((edgeCollapse sq m i).edges.getD j default).isDirty =
      (m.edges.getD j default).isDirty) ∧
    (((edgeCollapse sq m i).edges.getD j default).isDeleted = false →
      (((edgeCollapse sq m i).edges.getD j default).v1 = (m.edges.getD i default).v1 ∨
       ((edgeCollapse sq m i).edges.getD j default).v2 = (m.edges.getD i default).v1) →
      (edgeCollapse sq m i).edges.getD j default =
        computeCost ((edgeCollapse sq m i).edges.getD j default)
          (edgeCollapse sq m i).vertices) := by
  constructor
  · show ((recomputeAffected _ _ _).getD j default).isDirty = _
    rw [getD_recomputeAffected_proj _ Edge.isDirty (fun e => rfl)]
    show ((collapseEdges _ _ _ _).getD j default).isDirty = _
    simp only [collapseEdges]
    rw [getD_map_proj _ j _ default Edge.isDirty (remapEdge_isDirty _ _)]
    exact getD_updAt_proj _ _ _ _ _ Edge.isDirty (fun e => rfl)
  · intro hlivej htouch
    set e := m.edges.getD i default with he
    set v1 := e.v1
    set v2 := e.v2
    set edges4 := collapseEdges m.edges i v1 v2 with he4
    set vertices6 := computeQuadric v1
      (edgeCollapseStep1 m.vertices v1 v2 e.optimalPosition)
      (m.faces.map (remapFace v1 v2)) with hv6
    have hlen4 : edges4.length = m.edges.length := length_collapseEdges _ _ _ _
    have hj4 : j < edges4.length := by rw [hlen4]; exact hj
    -- liveness and endpoints transfer from the result back to `edges4`
    have hdel4 : (edges4.getD j default).isDeleted = false := by
      have := getD_recomputeAffected_proj vertices6 Edge.isDeleted (fun _ => rfl)
        (affectedOf edges4 v1) j edges4
      exact this ▸ hlivej
    have hv1t : (edges4.getD j default).v1 =
        ((edgeCollapse sq m i).edges.getD j default).v1 :=
      (getD_recomputeAffected_proj vertices6 Edge.v1 (fun _ => rfl)
        (affectedOf edges4 v1) j edges4).symm
    have hv2t : (edges4.getD j default).v2 =
        ((edgeCollapse sq m i).edges.getD j default).v2 :=
      (getD_recomputeAffected_proj vertices6 Edge.v2 (fun _ => rfl)
        (affectedOf edges4 v1) j edges4).symm
    have hmem : j ∈ affectedOf edges4 v1 := by
      rw [affectedOf, List.mem_filter]
      refine ⟨List.mem_range.mpr hj4, ?_⟩
      rw [decide_eq_true_eq]
      refine ⟨hdel4, ?_⟩
      rcases htouch with h | h
      · exact Or.inl (by rw [hv1t]; exact h)
      · exact Or.inr (by rw [hv2t]; exact h)
    have hnd : (affectedOf edges4 v1).Nodup :=
      (List.nodup_range _).filter _
    have hhit : (edgeCollapse sq m i).edges.getD j default =
        computeCost (edges4.getD j default) vertices6 :=
      recomputeAffected_hits vertices6 _ hnd j hmem edges4 hj4 hdel4
    rw [hhit]
    have hcongr : costOf (edges4.getD j default).v1 (edges4.getD j default).v2
        (edgeCollapse sq m i).vertices =
        costOf (edges4.getD j default).v1 (edges4.getD j default).v2 vertices6 := by
      apply costOf_congr
      · intro k
        exact getD_interpolateAttrs_quadric sq vertices6 v1 v2 e.optimalPosition k
      · intro k
        exact getD_interpolateAttrs_position sq vertices6 v1 v2 e.optimalPosition k
    show computeCost (edges4.getD j default) vertices6 =
      { computeCost (edges4.getD j default) vertices6 with
        cost := (costOf (edges4.getD j default).v1 (edges4.getD j default).v2
          (edgeCollapse sq m i).vertices).1,
        optimalPosition := (costOf (edges4.getD j default).v1
          (edges4.getD j default).v2 (edgeCollapse sq m i).vertices).2 }
    rw [hcongr]
    rfl

/-- A three-vertex mesh state in which edge 1 = `(0,2)` is live and DIRTY
while edge 0 = `(0,1)` (the collapse target) is live and clean. -/
def c9Mesh : Mesh :=
  { vertices :=
      [⟨⟨0,0,0⟩, ⟨0,0,1⟩, ⟨0,0⟩, ⟨1,1,1,1⟩, Mat4.mzero, false⟩,
       ⟨⟨1,0,0⟩, ⟨0,0,1⟩, ⟨0,0⟩, ⟨1,1,1,1⟩, Mat4.mzero, false⟩,
       ⟨⟨0,1,0⟩, ⟨0,0,1⟩, ⟨0,0⟩, ⟨1,1,1,1⟩, Mat4.mzero, false⟩],
    edges :=
      [{ v1 := 0, v2 := 1, cost := 0, optimalPosition := ⟨0,0,0⟩,
         isBoundary := false, isDirty := false, isDeleted := false },
       { v1 := 0, v2 := 2, cost := 0, optimalPosition := ⟨0,0,0⟩,
         isBoundary := false, isDirty := true, isDeleted := false }],
    faces := [], deletedVertices := 0 }

set_option maxHeartbeats 8000000 in
/-- C9 counterexample: after collapsing edge 0 of `c9Mesh`, edge 1 is a
still-live affected edge (it touches the surviving vertex 0), yet its
`isDirty` flag is still `true` when `edgeCollapse` returns — the claim
requires `isDirty == false` on every affected live edge. -/
theorem edgeCollapse_keeps_dirty_counterexample :
    ((edgeCollapse ratSqrt c9Mesh 0).edges.getD 1 default).isDeleted = false ∧
    ((edgeCollapse ratSqrt c9Mesh 0).edges.getD 1 default).v1 = 0 ∧
    ((edgeCollapse ratSqrt c9Mesh 0).edges.getD 1 default).isDirty = true := by
  norm_num [c9Mesh, edgeCollapse, edgeCollapseStep1, collapseEdges, affectedOf,
    List.range, List.range.loop, List.filter,
    recomputeAffected, interpolateAttrs, updAt, remapEdge, remapFace,
    computeQuadric, quadricSum, quadricSumStep, kp, Mat4.outerSelf, Mat4.mzero,
    Mat4.madd, Vec4.add, Vec4.smul, computeCost, costOf, Mat4.det4, Mat4.inv4,
    det3, Mat4.m00, Mat4.m01, Mat4.m02, Mat4.m03, Mat4.m10, Mat4.m11, Mat4.m12,
    Mat4.m13, Mat4.m20, Mat4.m21, Mat4.m22, Mat4.m23, Mat4.m30, Mat4.m31,
    Mat4.m32, Mat4.m33, Mat4.mulVec, Vec4.dot, Vec3.add, Vec3.smul, Vec3.sub,
    Vec3.lengthSq, Vec3.cross, Vec3.dot, qemEps, fltMax, Vec2.mix, Vec4.mix,
    ratSqrt, Int.sqrt, Nat.sqrt, List.getD]

/-- Witness for the amended C9 at `c9Mesh`, edge index 1. -/
theorem edgeCollapse_recomputes_affected_keeps_dirty_witness :
    (((edgeCollapse ratSqrt c9Mesh 0).edges.getD 1 default).isDirty =
      (c9Mesh.edges.getD 1 default).isDirty) ∧
    (((edgeCollapse ratSqrt c9Mesh 0).edges.getD 1 default).isDeleted = false →
      (((edgeCollapse ratSqrt c9Mesh 0).edges.getD 1 default).v1 =
          (c9Mesh.edges.getD 0 default).v1 ∨
       ((edgeCollapse ratSqrt c9Mesh 0).edges.getD 1 default).v2 =
          (c9Mesh.edges.getD 0 default).v1) →
      (edgeCollapse ratSqrt c9Mesh 0).edges.getD 1 default =
        computeCost ((edgeCollapse ratSqrt c9Mesh 0).edges.getD 1 default)
          (edgeCollapse ratSqrt c9Mesh 0).vertices) :=
  edgeCollapse_recomputes_affected_keeps_dirty ratSqrt c9Mesh 0 1 (by decide)

/-! ## Claim C8 -/

/-- The six corners of spec scenario S1: two triangles sharing the diagonal
of the unit square, welded corners repeated exactly. -/
def s1Positions : List Vec3 :=
  [⟨0,0,0⟩, ⟨1,0,0⟩, ⟨1,1,0⟩, ⟨0,0,0⟩, ⟨1,1,0⟩, ⟨0,1,0⟩]

def s1Uvs : List Vec2 := List.replicate 6 ⟨0,0⟩

def s1Normals : List Vec3 := List.replicate 6 ⟨0,0,1⟩

set_option maxHeartbeats 2000000 in
/-- C8: on the six-corner unit-square input, `buildMesh` welds the shared
corners into 4 unique vertices and produces 2 faces and 5 unique edges. -/
theorem buildMesh_unit_square_counts :
    (buildMesh ratSqrt s1Positions s1Uvs s1Normals).vertices.length = 4 ∧
    (buildMesh ratSqrt s1Positions s1Uvs s1Normals).faces.length = 2 ∧
    (buildMesh ratSqrt s1Positions s1Uvs s1Normals).edges.length = 5 := by
  norm_num [buildMesh, weldLoop, findWeld, findIdxQ, cellOf, distSq, Vec3.lengthSq,
    Vec3.sub, gridSize, epsWeld, s1Positions, s1Uvs, s1Normals,
    List.range, List.range.loop, List.getD, emitFaces, mkFace, extractEdges,
    addUniqueEdge, normPair]

/-! ## Claim C2 -/

theorem normPair_eq_of_le {a b : Nat} (h : a ≤ b) : normPair a b = (a, b) := by
  simp [normPair, min_eq_left h, max_eq_right h]

theorem normPair_fst_le_snd (a b : Nat) : (normPair a b).1 ≤ (normPair a b).2 :=
  min_le_max

/-- Invariant of the edge-extraction fold: every emitted edge's normalized
pair is in the seen set, and the emitted pairs are pairwise distinct. -/
def edgeSetInv (st : List Edge × List (Nat × Nat)) : Prop :=
  (∀ e ∈ st.1, normPair e.v1 e.v2 ∈ st.2) ∧
  List.Pairwise (fun a b => normPair a.v1 a.v2 ≠ normPair b.v1 b.v2) st.1

theorem addUniqueEdge_inv (st : List Edge × List (Nat × Nat)) (p : Nat × Nat)
    (hp : p.1 ≤ p.2) (h : edgeSetInv st) : edgeSetInv (addUniqueEdge st p) := by
  unfold addUniqueEdge
  split
  · exact h
  · rename_i hnot
    constructor
    · intro e he
      rcases List.mem_append.mp he with he | he
      · exact List.mem_cons_of_mem _ (h.1 e he)
      · rcases List.mem_singleton.mp he with rfl
        show normPair p.1 p.2 ∈ p :: st.2
        rw [normPair_eq_of_le hp]
        exact List.mem_cons_self _ _
    · rw [List.pairwise_append]
      refine ⟨h.2, List.pairwise_singleton _ _, ?_⟩
      intro a ha b hb
      rcases List.mem_singleton.mp hb with rfl
      intro hEq
      apply hnot
      have : normPair a.v1 a.v2 = p := by
        rw [hEq]
        show normPair p.1 p.2 = p
        rw [normPair_eq_of_le hp]
      exact this ▸ h.1 a ha

theorem extractEdges_fold_inv (faces : List Face) :
    ∀ st, edgeSetInv st → edgeSetInv (faces.foldl
      (fun st face =>
        addUniqueEdge
          (addUniqueEdge (addUniqueEdge st (normPair face.v1 face.v2))
            (normPair face.v2 face.v3))
          (normPair face.v3 face.v1)) st) := by
  induction faces with
  | nil => intro st h; exact h
  | cons f fs ih =>
    intro st h
    rw [List.foldl_cons]
    exact ih _ (addUniqueEdge_inv _ _ (normPair_fst_le_snd _ _)
      (addUniqueEdge_inv _ _ (normPair_fst_le_snd _ _)
        (addUniqueEdge_inv _ _ (normPair_fst_le_snd _ _) h)))

theorem extractEdges_pairwise (faces : List Face) :
    List.Pairwise (fun a b => normPair a.v1 a.v2 ≠ normPair b.v1 b.v2)
      (extractEdges faces) :=
  (extractEdges_fold_inv faces ([], [])
    ⟨fun e he => absurd he (List.not_mem_nil e), List.Pairwise.nil⟩).2

/-- C2 (amended): immediately after `buildMesh`, the live edges are pairwise
distinct as undirected pairs (the extraction deduplicates via the seen set).
`edgeCollapse` does NOT preserve this — see the counterexample, in which
collapsing edge `(0,1)` of the triangle `(0,1,2)` leaves two live copies of
the undirected edge `{0,2}`. -/
theorem buildMesh_no_duplicate_live_edges (sq : ℚ → ℚ) (ps : List Vec3)
    (us : List Vec2) (ns : List Vec3) :
    List.Pairwise (fun a b => a.isDeleted = false → b.isDeleted = false →
      normPair a.v1 a.v2 ≠ normPair b.v1 b.v2) (buildMesh sq ps us ns).edges := by
  have h : List.Pairwise (fun a b => normPair a.v1 a.v2 ≠ normPair b.v1 b.v2)
      (buildMesh sq ps us ns).edges := extractEdges_pairwise _
  exact h.imp (fun hab _ _ => hab)

/-- The three corners of a single triangle. -/
def c2TriPositions : List Vec3 := [⟨0,0,0⟩, ⟨1,0,0⟩, ⟨0,1,0⟩]

def c2TriUvs : List Vec2 := List.replicate 3 ⟨0,0⟩

def c2TriNormals : List Vec3 := List.replicate 3 ⟨0,0,1⟩

set_option maxHeartbeats 8000000 in
/-- C2 counterexample: build the one-triangle mesh (edges `(0,1)`, `(1,2)`,
`(0,2)`, all live) and collapse its live edge 0 = `(0,1)`.  Edge 1 is
remapped from `(1,2)` to `(0,2)` and stays live, while edge 2 = `(0,2)` also
stays live: two live edges now carry the same undirected pair `{0,2}`,
refuting the no-duplicate invariant for states reached by `edgeCollapse`. -/
theorem edgeCollapse_creates_duplicate_live_edges :
    ((edgeCollapse ratSqrt
        (buildMesh ratSqrt c2TriPositions c2TriUvs c2TriNormals) 0).edges.getD 1
        default).isDeleted = false ∧
    ((edgeCollapse ratSqrt
        (buildMesh ratSqrt c2TriPositions c2TriUvs c2TriNormals) 0).edges.getD 2
        default).isDeleted = false ∧
    normPair ((edgeCollapse ratSqrt
        (buildMesh ratSqrt c2TriPositions c2TriUvs c2TriNormals) 0).edges.getD 1
        default).v1
      ((edgeCollapse ratSqrt
        (buildMesh ratSqrt c2TriPositions c2TriUvs c2TriNormals) 0).edges.getD 1
        default).v2 =
    normPair ((edgeCollapse ratSqrt
        (buildMesh ratSqrt c2TriPositions c2TriUvs c2TriNormals) 0).edges.getD 2
        default).v1
      ((edgeCollapse ratSqrt
        (buildMesh ratSqrt c2TriPositions c2TriUvs c2TriNormals) 0).edges.getD 2
        default).v2 := by
  norm_num [c2TriPositions, c2TriUvs, c2TriNormals, buildMesh, weldLoop, findWeld,
    findIdxQ, cellOf, distSq, gridSize, epsWeld, List.range, List.range.loop,
    List.getD, emitFaces, mkFace, extractEdges, addUniqueEdge, normPair,
    edgeCollapse, edgeCollapseStep1, collapseEdges, affectedOf, List.filter,
    recomputeAffected, interpolateAttrs, updAt, remapEdge, remapFace,
    computeQuadric, quadricSum, quadricSumStep, kp, Mat4.outerSelf, Mat4.mzero,
    Mat4.madd, Vec4.add, Vec4.smul, computeCost, costOf, Mat4.det4, Mat4.inv4,
    det3, Mat4.m00, Mat4.m01, Mat4.m02, Mat4.m03, Mat4.m10, Mat4.m11, Mat4.m12,
    Mat4.m13, Mat4.m20, Mat4.m21, Mat4.m22, Mat4.m23, Mat4.m30, Mat4.m31,
    Mat4.m32, Mat4.m33, Mat4.mulVec, Vec4.dot, Vec3.add, Vec3.smul, Vec3.sub,
    Vec3.lengthSq, Vec3.cross, Vec3.dot, qemEps, fltMax, Vec2.mix, Vec4.mix,
    ratSqrt, Int.sqrt, Nat.sqrt]

/-! ## Claim C4 -/

/-- The collapse counter of the scheduler loop never exceeds `max k (c+1)`
when entered with `c` collapses already counted: the budget check sits after
the increment, so from `c` the loop can reach `c+1` even when `k ≤ c`. -/
theorem simplifyLoop_count_le (sq : ℚ → ℚ) (k : Nat) :
    ∀ (fuel : Nat) (m : Mesh) (q : List Edge) (c : Nat),
      (simplifyLoop sq k fuel m q c).2.2 ≤ max k (c + 1) := by
  intro fuel
  induction fuel with
  | zero =>
    intro m q c
    show c ≤ max k (c + 1)
    omega
  | succ fuel ih =>
    intro m q c
    simp only [simplifyLoop]
    rcases hpop : popMinQ q with _ | ⟨edge, q1⟩
    · show c ≤ max k (c + 1)
      omega
    · dsimp only
      rcases hfind : findIdxQ (fun e => edgeMatches e edge.v1 edge.v2) m.edges with
        _ | idx
      · exact ih m q1 c
      · dsimp only
        split
        · exact ih m q1 c
        · split
          · exact ih _ _ c
          · split
            · show c + 1 ≤ max k (c + 1)
              omega
            · refine le_trans (ih _ _ (c + 1)) ?_
              rename_i hk
              omega

/-- C4 (amended): one call to the simplification step with per-call budget
`k` performs at most `max k 1` edge collapses — at most `k` when `k ≥ 1`,
but with budget `k = 0` the post-increment check `count >= k` still lets ONE
collapse through before breaking, so the call is not a no-op. -/
theorem meshSimplify_count_le (sq : ℚ → ℚ) (k fuel : Nat) (m : Mesh)
    (q : List Edge) : (meshSimplify sq k fuel m q).2.2 ≤ max k 1 := by
  unfold meshSimplify
  split
  · exact simplifyLoop_count_le sq k fuel _ _ 0
  · exact simplifyLoop_count_le sq k fuel _ _ 0

set_option maxHeartbeats 8000000 in
/-- C4 counterexample: with budget `k = 0` on the one-edge `segMesh` (first
call, empty queue), the step still performs one collapse — the returned
count is 1 and vertex 1 is tombstoned — so `simplify_step(0)` is neither
collapse-free nor a no-op on mesh state. -/
theorem meshSimplify_budget_zero_collapses :
    (meshSimplify ratSqrt 0 2 segMesh []).2.2 = 1 ∧
    ((meshSimplify ratSqrt 0 2 segMesh
        []).1.vertices.getD 1 default).isDeleted = true := by
  norm_num [segMesh, meshSimplify, simplifyLoop, initQueue, popMinQ, findIdxQ,
    edgeMatches, edgeCollapse, edgeCollapseStep1, collapseEdges, affectedOf,
    List.range, List.range.loop, List.filter, recomputeAffected,
    interpolateAttrs, updAt, remapEdge, remapFace, computeQuadric, quadricSum,
    quadricSumStep, kp, Mat4.outerSelf, Mat4.mzero, Mat4.madd, Vec4.add,
    Vec4.smul, computeCost, costOf, Mat4.det4, Mat4.inv4, det3, Mat4.m00,
    Mat4.m01, Mat4.m02, Mat4.m03, Mat4.m10, Mat4.m11, Mat4.m12, Mat4.m13,
    Mat4.m20, Mat4.m21, Mat4.m22, Mat4.m23, Mat4.m30, Mat4.m31, Mat4.m32,
    Mat4.m33, Mat4.mulVec, Vec4.dot, Vec3.add, Vec3.smul, Vec3.sub,
    Vec3.lengthSq, Vec3.cross, Vec3.dot, qemEps, fltMax, Vec2.mix, Vec4.mix,
    ratSqrt, Int.sqrt, Nat.sqrt, List.getD]

/-! ## Claim C1: infrastructure -/

theorem findIdxQ_lt {α : Type} (p : α → Bool) :
    ∀ (l : List α) (j : Nat), findIdxQ p l = some j → j < l.length := by
  intro l
  induction l with
  | nil => intro j h; cases h
  | cons a l ih =>
    intro j h
    unfold findIdxQ at h
    by_cases hp : p a
    · rw [if_pos hp] at h
      cases h
      simp
    · rw [if_neg hp] at h
      rcases Option.map_eq_some'.mp h with ⟨j', hj', rfl⟩
      have := ih j' hj'
      simp only [List.length_cons]
      omega

/-- Welding grows the vertex array, keeps every mapping entry in range, and
creates only live vertices. -/
theorem weldLoop_facts :
    ∀ (corners : List (Vec3 × Vec2 × Vec3)) (vs : List Vertex) (mapping : List Nat),
      (∀ x ∈ mapping, x < vs.length) → (∀ v ∈ vs, v.isDeleted = false) →
      vs.length ≤ (weldLoop corners vs mapping).1.length ∧
      (∀ x ∈ (weldLoop corners vs mapping).2, x < (weldLoop corners vs mapping).1.length) ∧
      (∀ v ∈ (weldLoop corners vs mapping).1, v.isDeleted = false) := by
  intro corners
  induction corners with
  | nil => intro vs mapping hmap hlive; exact ⟨le_refl _, hmap, hlive⟩
  | cons corner rest ih =>
    intro vs mapping hmap hlive
    obtain ⟨p, uv, nrm⟩ := corner
    simp only [weldLoop]
    rcases hfw : findWeld vs p with _ | j
    · dsimp only
      set w : Vertex := ⟨p, nrm, uv, ⟨1,1,1,1⟩, Mat4.mzero, false⟩ with hw
      have hmap' : ∀ x ∈ mapping ++ [vs.length], x < (vs ++ [w]).length := by
        intro x hx
        rcases List.mem_append.mp hx with hx | hx
        · have := hmap x hx
          simp only [List.length_append, List.length_singleton]
          omega
        · rcases List.mem_singleton.mp hx with rfl
          simp
      have hlive' : ∀ v ∈ vs ++ [w], v.isDeleted = false := by
        intro v hv
        rcases List.mem_append.mp hv with hv | hv
        · exact hlive v hv
        · rcases List.mem_singleton.mp hv with rfl
          rw [hw]
      obtain ⟨h1, h2, h3⟩ := ih (vs ++ [w]) (mapping ++ [vs.length]) hmap' hlive'
      refine ⟨le_trans ?_ h1, h2, h3⟩
      simp
    · dsimp only
      have hj : j < vs.length := findIdxQ_lt _ vs j hfw
      have hmap' : ∀ x ∈ mapping ++ [j], x < vs.length := by
        intro x hx
        rcases List.mem_append.mp hx with hx | hx
        · exact hmap x hx
        · rcases List.mem_singleton.mp hx with rfl
          exact hj
      exact ih vs (mapping ++ [j]) hmap' hlive

/-- Every emitted face is live, has pairwise-distinct indices, and indexes
into the welded vertex array. -/
theorem emitFaces_facts (sq : ℚ → ℚ) (vs : List Vertex) :
    ∀ (mapping : List Nat), (∀ x ∈ mapping, x < vs.length) →
      ∀ f ∈ emitFaces sq vs mapping,
        f.isDeleted = false ∧ f.v1 ≠ f.v2 ∧ f.v2 ≠ f.v3 ∧ f.v3 ≠ f.v1 ∧
        f.v1 < vs.length ∧ f.v2 < vs.length ∧ f.v3 < vs.length
  | [], _, f, hf => absurd hf (List.not_mem_nil f)
  | [_], _, f, hf => absurd hf (List.not_mem_nil f)
  | [_, _], _, f, hf => absurd hf (List.not_mem_nil f)
  | a :: b :: c :: rest, hmap, f, hf => by
    have hrest : ∀ x ∈ rest, x < vs.length := by
      intro x hx
      exact hmap x (by simp [hx])
    have hrec := emitFaces_facts sq vs rest hrest f
    by_cases hdeg : a = b ∨ b = c ∨ c = a
    · rw [show emitFaces sq vs (a :: b :: c :: rest) = emitFaces sq vs rest by
        rw [emitFaces, if_pos hdeg]] at hf
      exact hrec hf
    · rw [show emitFaces sq vs (a :: b :: c :: rest) =
        mkFace sq a b c (vs.getD a default).position (vs.getD b default).position
          (vs.getD c default).position :: emitFaces sq vs rest by
        rw [emitFaces, if_neg hdeg]] at hf
      rcases List.mem_cons.mp hf with rfl | hf'
      · push_neg at hdeg
        exact ⟨rfl, hdeg.1, hdeg.2.1, hdeg.2.2,
          hmap a (by simp), hmap b (by simp), hmap c (by simp)⟩
      · exact hrec hf'

theorem addUniqueEdge_all (P : Edge → Prop) (st : List Edge × List (Nat × Nat))
    (p : Nat × Nat) (hst : ∀ e ∈ st.1, P e)
    (hp : P { v1 := p.1, v2 := p.2, cost := 0, optimalPosition := default,
              isBoundary := false, isDirty := false, isDeleted := false }) :
    ∀ e ∈ (addUniqueEdge st p).1, P e := by
  unfold addUniqueEdge
  split
  · exact hst
  · intro e he
    rcases List.mem_append.mp he with he | he
    · exact hst e he
    · rcases List.mem_singleton.mp he with rfl
      exact hp

/-- Property transfer from face pairs to extracted edges. -/
theorem extractEdges_all (P : Edge → Prop) (faces : List Face)
    (hfaces : ∀ f ∈ faces, ∀ x y : Nat,
      ((x, y) = normPair f.v1 f.v2 ∨ (x, y) = normPair f.v2 f.v3 ∨
       (x, y) = normPair f.v3 f.v1) →
      P { v1 := x, v2 := y, cost := 0, optimalPosition := default,
          isBoundary := false, isDirty := false, isDeleted := false }) :
    ∀ e ∈ extractEdges faces, P e := by
  suffices h : ∀ st : List Edge × List (Nat × Nat), (∀ e ∈ st.1, P e) →
      ∀ e ∈ (faces.foldl
        (fun st face =>
          addUniqueEdge
            (addUniqueEdge (addUniqueEdge st (normPair face.v1 face.v2))
              (normPair face.v2 face.v3))
            (normPair face.v3 face.v1)) st).1, P e by
    exact h ([], []) (fun e he => absurd he (List.not_mem_nil e))
  induction faces with
  | nil => intro st hst; exact hst
  | cons f fs ih =>
    intro st hst
    rw [List.foldl_cons]
    refine ih (fun g hg => hfaces g (List.mem_cons_of_mem f hg)) _ ?_
    have h1 := hfaces f (List.mem_cons_self f fs)
    exact addUniqueEdge_all P _ _
      (addUniqueEdge_all P _ _
        (addUniqueEdge_all P _ _ hst
          (h1 _ _ (Or.inl rfl)))
        (h1 _ _ (Or.inr (Or.inl rfl))))
      (h1 _ _ (Or.inr (Or.inr rfl)))

theorem remapEdge_cases (v1 v2 : Nat) (c : Edge)
    (h : (remapEdge v1 v2 c).isDeleted = false) :
    c.isDeleted = false ∧
    remapEdge v1 v2 c = { c with v1 := if c.v1 = v2 then v1 else c.v1,
                                 v2 := if c.v2 = v2 then v1 else c.v2 } ∧
    (if c.v1 = v2 then v1 else c.v1) ≠ (if c.v2 = v2 then v1 else c.v2) := by
  by_cases hdel : c.isDeleted
  · exfalso
    unfold remapEdge at h
    rw [if_pos hdel] at h
    rw [h] at hdel
    cases hdel
  · by_cases heq : (if c.v1 = v2 then v1 else c.v1) = (if c.v2 = v2 then v1 else c.v2)
    · exfalso
      unfold remapEdge at h
      rw [if_neg hdel, if_pos heq] at h
      cases h
    · refine ⟨by simpa using hdel, ?_, heq⟩
      unfold remapEdge
      rw [if_neg hdel, if_neg heq]

theorem remapFace_cases (v1 v2 : Nat) (c : Face)
    (h : (remapFace v1 v2 c).isDeleted = false) :
    c.isDeleted = false ∧
    remapFace v1 v2 c = { c with v1 := if c.v1 = v2 then v1 else c.v1,
                                 v2 := if c.v2 = v2 then v1 else c.v2,
                                 v3 := if c.v3 = v2 then v1 else c.v3 } ∧
    ¬((if c.v1 = v2 then v1 else c.v1) = (if c.v2 = v2 then v1 else c.v2) ∨
      (if c.v2 = v2 then v1 else c.v2) = (if c.v3 = v2 then v1 else c.v3) ∨
      (if c.v3 = v2 then v1 else c.v3) = (if c.v1 = v2 then v1 else c.v1)) := by
  by_cases hdel : c.isDeleted
  · exfalso
    unfold remapFace at h
    rw [if_pos hdel] at h
    rw [h] at hdel
    cases hdel
  · by_cases heq : (if c.v1 = v2 then v1 else c.v1) = (if c.v2 = v2 then v1 else c.v2) ∨
      (if c.v2 = v2 then v1 else c.v2) = (if c.v3 = v2 then v1 else c.v3) ∨
      (if c.v3 = v2 then v1 else c.v3) = (if c.v1 = v2 then v1 else c.v1)
    · exfalso
      unfold remapFace at h
      rw [if_neg hdel, if_pos heq] at h
      cases h
    · refine ⟨by simpa using hdel, ?_, heq⟩
      unfold remapFace
      rw [if_neg hdel, if_neg heq]

/-- Step 7 only refreshes costs: every result edge descends from an input
edge with the same endpoints and tombstone flag. -/
theorem mem_recomputeAffected (vs : List Vertex) (l : List Nat) :
    ∀ (es : List Edge), ∀ a ∈ recomputeAffected l es vs,
      ∃ b ∈ es, a.v1 = b.v1 ∧ a.v2 = b.v2 ∧ a.isDeleted = b.isDeleted := by
  induction l with
  | nil => intro es a ha; exact ⟨a, ha, rfl, rfl, rfl⟩
  | cons j l ih =>
    intro es a ha
    have ha' : a ∈ recomputeAffected l (if (es.getD j default).isDeleted then es
      else updAt es j (fun e => computeCost e vs)) vs := ha
    obtain ⟨b, hb, h1, h2, h3⟩ := ih _ a ha'
    by_cases hdel : (es.getD j default).isDeleted
    · rw [if_pos hdel] at hb
      exact ⟨b, hb, h1, h2, h3⟩
    · rw [if_neg hdel] at hb
      rcases mem_updAt hb with hbm | ⟨c, hc, rfl⟩
      · exact ⟨b, hbm, h1, h2, h3⟩
      · exact ⟨c, hc, h1, h2, h3⟩

/-- `edgeCollapse` changes no vertex's tombstone flag except `v2`'s. -/
theorem edgeCollapse_vertexLive_ne (sq : ℚ → ℚ) (m : Mesh) (i k : Nat)
    (hk : k ≠ (m.edges.getD i default).v2) :
    ((edgeCollapse sq m i).vertices.getD k default).isDeleted =
      (m.vertices.getD k default).isDeleted := by
  show ((interpolateAttrs _ _ _ _ _).getD k default).isDeleted = _
  rw [getD_interpolateAttrs_isDeleted, getD_computeQuadric_isDeleted]
  show ((edgeCollapseStep1 _ _ _ _).getD k default).isDeleted = _
  simp only [edgeCollapseStep1]
  rw [getD_updAt_ne _ _ hk]
  exact getD_updAt_proj _ _ _ _ _ Vertex.isDeleted (fun v => rfl)

/-- `buildMesh` establishes the structural invariant. -/
theorem buildMesh_inv (sq : ℚ → ℚ) (ps : List Vec3) (us : List Vec2)
    (ns : List Vec3) : meshInv (buildMesh sq ps us ns) := by
  simp only [meshInv, vertexLive]
  set CC := (List.range ps.length).map
    (fun i => (ps.getD i default, us.getD i default, ns.getD i default)) with hCC
  obtain ⟨-, hmap, hvlive⟩ := weldLoop_facts CC [] []
    (fun x hx => absurd hx (List.not_mem_nil x))
    (fun v hv => absurd hv (List.not_mem_nil v))
  constructor
  · intro f hf hflive
    have hf' : f ∈ emitFaces sq (weldLoop CC [] []).1 (weldLoop CC [] []).2 := hf
    obtain ⟨-, h12, h23, h31, hc1, hc2, hc3⟩ := emitFaces_facts sq _ _ hmap f hf'
    exact ⟨h12, h23, h31, hc1, hc2, hc3,
      hvlive _ (getD_mem default hc1), hvlive _ (getD_mem default hc2),
      hvlive _ (getD_mem default hc3)⟩
  · intro e he helive
    have he' : e ∈ extractEdges
      (emitFaces sq (weldLoop CC [] []).1 (weldLoop CC [] []).2) := he
    have hhyp : ∀ f ∈ emitFaces sq (weldLoop CC [] []).1 (weldLoop CC [] []).2,
        ∀ x y : Nat,
        ((x, y) = normPair f.v1 f.v2 ∨ (x, y) = normPair f.v2 f.v3 ∨
         (x, y) = normPair f.v3 f.v1) →
        (x ≠ y ∧ x < (weldLoop CC [] []).1.length ∧
         y < (weldLoop CC [] []).1.length) := by
      intro f hf x y hxy
      obtain ⟨-, h12, h23, h31, hc1, hc2, hc3⟩ := emitFaces_facts sq _ _ hmap f hf
      rcases hxy with h | h | h
      · simp only [normPair] at h
        injection h with hx hy
        subst hx
        subst hy
        exact ⟨ne_of_lt (min_lt_max.mpr h12),
          lt_of_le_of_lt (min_le_left _ _) hc1, max_lt hc1 hc2⟩
      · simp only [normPair] at h
        injection h with hx hy
        subst hx
        subst hy
        exact ⟨ne_of_lt (min_lt_max.mpr h23),
          lt_of_le_of_lt (min_le_left _ _) hc2, max_lt hc2 hc3⟩
      · simp only [normPair] at h
        injection h with hx hy
        subst hx
        subst hy
        exact ⟨ne_of_lt (min_lt_max.mpr h31),
          lt_of_le_of_lt (min_le_left _ _) hc3, max_lt hc3 hc1⟩
    obtain ⟨hne, hbb1, hbb2⟩ := extractEdges_all
      (fun ed => ed.v1 ≠ ed.v2 ∧ ed.v1 < (weldLoop CC [] []).1.length ∧
        ed.v2 < (weldLoop CC [] []).1.length) _ hhyp e he'
    exact ⟨hne, hbb1, hbb2, hvlive _ (getD_mem default hbb1),
      hvlive _ (getD_mem default hbb2)⟩

/-- `edgeCollapse` on a live edge preserves the structural invariant. -/
theorem edgeCollapse_preserves_inv (sq : ℚ → ℚ) (m : Mesh) (i : Nat)
    (hi : i < m.edges.length)
    (hlivei : (m.edges.getD i default).isDeleted = false)
    (hInv : meshInv m) : meshInv (edgeCollapse sq m i) := by
  simp only [meshInv, vertexLive] at hInv ⊢
  obtain ⟨hFace, hEdge⟩ := hInv
  obtain ⟨hne, hb1, hb2, hl1, hl2⟩ :=
    hEdge (m.edges.getD i default) (getD_mem default hi) hlivei
  set v1 := (m.edges.getD i default).v1 with hv1
  set v2 := (m.edges.getD i default).v2 with hv2
  have hlen : (edgeCollapse sq m i).vertices.length = m.vertices.length :=
    edgeCollapse_vertices_length sq m i
  have htrans : ∀ k, k ≠ v2 →
      ((edgeCollapse sq m i).vertices.getD k default).isDeleted =
        (m.vertices.getD k default).isDeleted :=
    fun k hk => edgeCollapse_vertexLive_ne sq m i k hk
  have hremap : ∀ y : Nat, y < m.vertices.length →
      (m.vertices.getD y default).isDeleted = false →
      ((if y = v2 then v1 else y) < (edgeCollapse sq m i).vertices.length ∧
       ((edgeCollapse sq m i).vertices.getD (if y = v2 then v1 else y)
         default).isDeleted = false) := by
    intro y hy hylive
    by_cases hyv : y = v2
    · rw [if_pos hyv, hlen]
      refine ⟨hb1, ?_⟩
      rw [htrans v1 hne]
      exact hl1
    · rw [if_neg hyv, hlen]
      refine ⟨hy, ?_⟩
      rw [htrans y hyv]
      exact hylive
  constructor
  · intro f hf hflive
    have hf' : f ∈ m.faces.map (remapFace v1 v2) := hf
    obtain ⟨c, hc, rfl⟩ := List.mem_map.mp hf'
    obtain ⟨hcdel, heqr, hnd⟩ := remapFace_cases v1 v2 c hflive
    obtain ⟨-, -, -, hcb1, hcb2, hcb3, hcl1, hcl2, hcl3⟩ := hFace c hc hcdel
    push_neg at hnd
    obtain ⟨hr1, hr2, hr3⟩ := hnd
    rw [heqr]
    exact ⟨hr1, hr2, hr3, (hremap _ hcb1 hcl1).1, (hremap _ hcb2 hcl2).1,
      (hremap _ hcb3 hcl3).1, (hremap _ hcb1 hcl1).2, (hremap _ hcb2 hcl2).2,
      (hremap _ hcb3 hcl3).2⟩
  · intro a ha halive
    have ha' : a ∈ recomputeAffected
        (affectedOf (collapseEdges m.edges i v1 v2) v1)
        (collapseEdges m.edges i v1 v2)
        (computeQuadric v1
          (edgeCollapseStep1 m.vertices v1 v2 (m.edges.getD i default).optimalPosition)
          (m.faces.map (remapFace v1 v2))) := ha
    obtain ⟨b, hb, hav1, hav2, hadel⟩ := mem_recomputeAffected _ _ _ a ha'
    have hb' : b ∈ (updAt m.edges i
        (fun e => { e with isDeleted := true })).map (remapEdge v1 v2) := hb
    obtain ⟨c, hc, rfl⟩ := List.mem_map.mp hb'
    have hbl : (remapEdge v1 v2 c).isDeleted = false := by
      rw [← hadel]
      exact halive
    obtain ⟨hcdel, heqr, hner⟩ := remapEdge_cases v1 v2 c hbl
    rcases mem_updAt hc with hcm | ⟨d, hd, rfl⟩
    · obtain ⟨-, hcb1, hcb2, hcl1, hcl2⟩ := hEdge c hcm hcdel
      rw [hav1, hav2, heqr]
      exact ⟨hner, (hremap _ hcb1 hcl1).1, (hremap _ hcb2 hcl2).1,
        (hremap _ hcb1 hcl1).2, (hremap _ hcb2 hcl2).2⟩
    · simp at hcdel

/-- C1: every reachable mesh state — built by `buildMesh` and mutated only
by `edgeCollapse` on live edges — satisfies the structural invariant: every
live face has three pairwise-distinct, in-range, live vertex indices, and
every live edge has two distinct, in-range, live endpoints.  `edgeCollapse`
preserves this by remapping `v2`-references to `v1`, tombstoning self-loop
edges, and tombstoning faces with a repeated vertex. -/
theorem reachable_meshInv (sq : ℚ → ℚ) (m : Mesh) (h : Reachable sq m) :
    meshInv m := by
  induction h with
  | build ps us ns => exact buildMesh_inv sq ps us ns
  | collapse m' i hr hi hl ih => exact edgeCollapse_preserves_inv sq m' i hi hl ih

/-- Witness for C1: the one-triangle build is reachable and the theorem
yields its invariant. -/
theorem reachable_meshInv_witness :
    meshInv (buildMesh ratSqrt c2TriPositions c2TriUvs c2TriNormals) :=
  reachable_meshInv ratSqrt _
    (Reachable.build c2TriPositions c2TriUvs c2TriNormals)

end QEM
